import Mathlib

/-!
# Verification of the bunny_lords game-economy and combat core

Shallow embedding of the deterministic game-economy / combat simulation of
the repository (Python sources under `src/bunny_lords/`), together with
proofs about the embedded operations.

Modelling conventions:
* Python `float` values (resource amounts, hit points, timers) are modelled
  as rationals `ℚ`; Python `int` as `ℤ` or `ℕ` as appropriate.
* Python `dict[str, T]` values are modelled as association lists
  `List (String × T)` with first-match lookup; a `dict` built by Python has
  pairwise distinct keys, which theorems assume via `List.Nodup` hypotheses.
* Python code that can raise (`d[k]` on a missing key) is modelled in
  `Option`, `none` standing for the raised exception.
* `random.uniform(0.9, 1.1)` is modelled by an oracle `spread : ℕ → ℚ`
  consumed one value per attack; hypotheses record the interval bound.
-/

namespace BunnyLords

/-! ## Association-list maps (Python `dict`) -/

/-- First-match lookup, i.e. Python `d.get(k)` returning `None` when absent. -/
def alget {α : Type} : List (String × α) → String → Option α
  | [], _ => none
  | (k2, v) :: rest, k => if k2 = k then some v else alget rest k

/-- Python `d.get(k, dflt)`. -/
def algetD {α : Type} (m : List (String × α)) (k : String) (dflt : α) : α :=
  (alget m k).getD dflt

/-- Python `d[k] = v`: update the first binding of `k`, or append a new one. -/
def alset {α : Type} : List (String × α) → String → α → List (String × α)
  | [], k, v => [(k, v)]
  | (k2, v2) :: rest, k, v =>
    if k2 = k then (k2, v) :: rest else (k2, v2) :: alset rest k v

/-- Python `k in d`. -/
def alhas {α : Type} (m : List (String × α)) (k : String) : Bool :=
  (alget m k).isSome

/-! ## Resource Ledger (`systems/resource_system.py`, class `ResourceManager`)

The `_defs` catalog field is only used to initialise the two maps from JSON
and is omitted; `add` / `spend` / `can_afford` / `pay` are translated
line by line.  `resources[rid] -= amt` on an absent key raises `KeyError`
in Python, which the embedding models by returning `none`. -/

abbrev RMap := List (String × ℚ)

structure ResourceManager where
  resources : RMap
  capacity : RMap
  deriving Repr, DecidableEq

/-- `add(rid, amount)`: `resources[rid] = min(resources.get(rid,0) + amount, capacity.get(rid, inf))`.
The `float("inf")` default makes `min` a no-op when no capacity is recorded. -/
def ResourceManager.add (s : ResourceManager) (rid : String) (amount : ℚ) :
    ResourceManager :=
  let cur := algetD s.resources rid 0
  match alget s.capacity rid with
  | some cap => { s with resources := alset s.resources rid (min (cur + amount) cap) }
  | none => { s with resources := alset s.resources rid (cur + amount) }

/-- `spend(rid, amount)`: deduct if `resources.get(rid,0) >= amount`, else return `False`.
The deduction `resources[rid] -= amount` raises `KeyError` (here `none`)
when `rid` has no binding. -/
def ResourceManager.spend (s : ResourceManager) (rid : String) (amount : ℚ) :
    Option (ResourceManager × Bool) :=
  if amount ≤ algetD s.resources rid 0 then
    match alget s.resources rid with
    | some cur => some ({ s with resources := alset s.resources rid (cur - amount) }, true)
    | none => none
  else
    some (s, false)

/-- `can_afford(cost)`: every entry satisfies `resources.get(r,0) >= amt`. -/
def ResourceManager.can_afford (s : ResourceManager) (cost : List (String × ℚ)) : Bool :=
  cost.all fun rc => rc.2 ≤ algetD s.resources rc.1 0

/-- The deduction loop of `pay`: `for r, amt in cost.items(): resources[r] -= amt`,
raising (`none`) on an absent key. -/
def payLoop (m : RMap) : List (String × ℚ) → Option RMap
  | [] => some m
  | (r, amt) :: rest =>
    match alget m r with
    | some cur => payLoop (alset m r (cur - amt)) rest
    | none => none

/-- `pay(cost)`: check `can_afford` first, then deduct every entry. -/
def ResourceManager.pay (s : ResourceManager) (cost : List (String × ℚ)) :
    Option (ResourceManager × Bool) :=
  if s.can_afford cost then
    match payLoop s.resources cost with
    | some m => some ({ s with resources := m }, true)
    | none => none
  else
    some (s, false)

/-- One call of the claim's `add`/`pay`/`spend` interface. -/
inductive ROp where
  | add (rid : String) (amount : ℚ)
  | spend (rid : String) (amount : ℚ)
  | pay (cost : List (String × ℚ))
  deriving Repr

/-- Execute one call, keeping only the state (`none` = Python exception). -/
def stepOp (s : ResourceManager) : ROp → Option ResourceManager
  | .add rid a => some (s.add rid a)
  | .spend rid a => (s.spend rid a).map Prod.fst
  | .pay c => (s.pay c).map Prod.fst

/-- Execute a sequence of calls. -/
def runOps (s : ResourceManager) : List ROp → Option ResourceManager
  | [] => some s
  | op :: rest =>
    match stepOp s op with
    | some s2 => runOps s2 rest
    | none => none

/-- Every recorded amount is nonnegative and bounded by its recorded capacity. -/
def InBounds (s : ResourceManager) : Prop :=
  ∀ k v, alget s.resources k = some v →
    0 ≤ v ∧ ∀ c, alget s.capacity k = some c → v ≤ c

/-- Every recorded capacity is nonnegative (part of `0 ≤ amount ≤ capacity`,
since an unrecorded amount reads as `0`). -/
def CapNonneg (s : ResourceManager) : Prop :=
  ∀ k c, alget s.capacity k = some c → 0 ≤ c

/-- The amended well-formedness of a call: amounts are nonnegative, and the
resource ids a `spend`/`pay` touches are present in the initial ledger
(else Python can raise `KeyError`); a cost map has distinct keys. -/
def WfOp (s0 : ResourceManager) : ROp → Prop
  | .add _ a => 0 ≤ a
  | .spend rid a => 0 ≤ a ∧ alhas s0.resources rid = true
  | .pay c => (∀ p ∈ c, 0 ≤ p.2 ∧ alhas s0.resources p.1 = true) ∧
      (c.map Prod.fst).Nodup

/-! ## Combat (`systems/combat_system.py`)

`BattleUnit.side` is the Python string `"player"`/`"enemy"`, modelled as a
`Bool` (`true` = `"player"`).  The Python engine mutates the two unit lists
through the aliased, speed-sorted `all_units` list; the embedding keeps one
list `p_units ++ e_units` with stable indices and a fixed index order, and
recovers the two lists by filtering on the immutable `side` tag.  The
`BattleLog` only records events and never influences the simulation; it is
omitted.  `random.uniform(0.9, 1.1)` is an oracle `spread : ℕ → ℚ`,
consumed once per attack. -/

/-- The `TYPE_ADVANTAGE` dict: attacker type → type it is strong against. -/
def TYPE_ADVANTAGE (t : String) : Option String :=
  if t = "infantry" then some "cavalry"
  else if t = "cavalry" then some "ranged"
  else if t = "ranged" then some "infantry"
  else if t = "siege" then some "siege"
  else none

/-- A group of identical troops in combat (class `BattleUnit`).  The display
colour is omitted. -/
structure BattleUnit where
  troop_id : String
  name : String
  troop_type : String
  count : ℤ
  max_count : ℤ
  hp_per_unit : ℚ
  total_hp : ℚ
  max_hp : ℚ
  atk : ℚ
  defense : ℚ
  speed : ℚ
  side : Bool
  deriving Repr, DecidableEq

/-- `alive`: `total_hp > 0 and count > 0`. -/
def BattleUnit.alive (u : BattleUnit) : Bool :=
  decide (0 < u.total_hp) && decide (0 < u.count)

/-- `take_damage(damage)`: floor the hp pool at 0, re-derive the count by
ceiling division (`hp_per_unit` is never recomputed), return the updated
unit and the number killed. -/
def BattleUnit.take_damage (u : BattleUnit) (damage : ℚ) : BattleUnit × ℤ :=
  let hp2 := max 0 (u.total_hp - damage)
  let new_count : ℤ := if 0 < hp2 then max 0 ⌈hp2 / u.hp_per_unit⌉ else 0
  let killed := u.count - new_count
  ({ u with total_hp := hp2, count := new_count }, killed)

/-- `_calc_damage`: base = atk × count, defense absorbs half its value,
floor at 1, then the type-advantage multiplier (×1.3 strong, ×0.75 when the
defender has the advantage), then the random spread. -/
def calc_damage (attacker defender : BattleUnit) (spread : ℚ) : ℚ :=
  let base_dmg := attacker.atk * (attacker.count : ℚ)
  let net := max 1 (base_dmg - defender.defense * (1 / 2))
  let net2 :=
    if TYPE_ADVANTAGE attacker.troop_type = some defender.troop_type then
      net * (13 / 10)
    else if TYPE_ADVANTAGE defender.troop_type = some attacker.troop_type then
      net * (3 / 4)
    else net
  net2 * spread

/-- The alive units of one side, each with its index into the full unit
list (the Python `p_alive` / `e_alive` comprehensions). -/
def aliveIdxFrom (player : Bool) : ℕ → List BattleUnit → List (ℕ × BattleUnit)
  | _, [] => []
  | i, u :: rest =>
    if u.side == player && u.alive then (i, u) :: aliveIdxFrom player (i + 1) rest
    else aliveIdxFrom player (i + 1) rest

def aliveIdx (units : List BattleUnit) (player : Bool) : List (ℕ × BattleUnit) :=
  aliveIdxFrom player 0 units

/-- Python `min(..., key=lambda t: t.total_hp)`: first element with minimal
pooled hp. -/
def minByHp : (ℕ × BattleUnit) → List (ℕ × BattleUnit) → ℕ × BattleUnit
  | best, [] => best
  | best, x :: rest => minByHp (if x.2.total_hp < best.2.total_hp then x else best) rest

/-- `min(lst, key=total_hp)` over a possibly-empty list; the `[]` case is a
dummy (the caller guarantees nonemptiness). -/
def pickFrom (attacker : BattleUnit) : List (ℕ × BattleUnit) → ℕ × BattleUnit
  | [] => (0, attacker)
  | x :: rest => minByHp x rest

/-- `_pick_target`: prefer targets of the attacker's strong-vs type, then
focus-fire the lowest pooled hp. -/
def pick_target (attacker : BattleUnit) (targets : List (ℕ × BattleUnit)) :
    ℕ × BattleUnit :=
  let advantaged := TYPE_ADVANTAGE attacker.troop_type
  let adv_targets := targets.filter fun t => some t.2.troop_type = advantaged
  pickFrom attacker (if adv_targets.isEmpty then targets else adv_targets)

/-- Stable descending insertion by speed (`all_units.sort(key=speed,
reverse=True)` — Python's sort is stable). -/
def insertBySpeed (x : ℕ × BattleUnit) :
    List (ℕ × BattleUnit) → List (ℕ × BattleUnit)
  | [] => [x]
  | y :: ys => if y.2.speed < x.2.speed then x :: y :: ys else y :: insertBySpeed x ys

def sortIdxBySpeed : List (ℕ × BattleUnit) → List (ℕ × BattleUnit)
  | [] => []
  | x :: xs => insertBySpeed x (sortIdxBySpeed xs)

def enumFrom {α : Type} : ℕ → List α → List (ℕ × α)
  | _, [] => []
  | i, x :: xs => (i, x) :: enumFrom (i + 1) xs

/-- The fixed turn order: unit indices sorted by speed, descending. -/
def sortOrder (units : List BattleUnit) : List ℕ :=
  (sortIdxBySpeed (enumFrom 0 units)).map Prod.fst

/-- One attack: pick the target among `targets`, compute the damage with the
`k`-th random spread, and write the damaged target back into the unit list. -/
def attackStep (spread : ℕ → ℚ) (u : BattleUnit) (targets : List (ℕ × BattleUnit))
    (units : List BattleUnit) (k : ℕ) : List BattleUnit :=
  units.set (pick_target u targets).1
    ((pick_target u targets).2.take_damage
      (calc_damage u (pick_target u targets).2 (spread k))).1

/-- The body of one combat tick: each unit of the fixed order attacks once,
skipping dead units; alive lists are refreshed after every attack and the
tick ends early once a side is wiped.  Returns the updated units and the
index of the next random spread to consume. -/
def tickInner (spread : ℕ → ℚ) : List ℕ → List BattleUnit → ℕ →
    List BattleUnit × ℕ
  | [], units, k => (units, k)
  | idx :: rest, units, k =>
    match units.get? idx with
    | none => tickInner spread rest units k
    | some u =>
      if u.alive then
        match aliveIdx units (!u.side) with
        | [] => (units, k)
        | t0 :: ts =>
          if (aliveIdx (attackStep spread u (t0 :: ts) units k) true).isEmpty ||
              (aliveIdx (attackStep spread u (t0 :: ts) units k) false).isEmpty then
            (attackStep spread u (t0 :: ts) units k, k + 1)
          else
            tickInner spread rest (attackStep spread u (t0 :: ts) units k) (k + 1)
      else tickInner spread rest units k

/-- `MAX_TICKS = 100  # prevent infinite battles`. -/
def MAX_TICKS : ℕ := 100

/-- The `while tick < MAX_TICKS` loop of `resolve`, with
`fuel = MAX_TICKS - tick`: increment the tick, stop if either side is
already wiped, else run one tick body.  Returns final units, the tick
counter, and the spread index. -/
def runTicks (spread : ℕ → ℚ) (order : List ℕ) :
    ℕ → ℕ → List BattleUnit → ℕ → List BattleUnit × ℕ × ℕ
  | 0, tick, units, k => (units, tick, k)
  | fuel + 1, tick, units, k =>
    if (aliveIdx units true).isEmpty || (aliveIdx units false).isEmpty then
      (units, tick + 1, k)
    else
      runTicks spread order fuel (tick + 1) (tickInner spread order units k).1
        (tickInner spread order units k).2

/-- Static troop definition (`entities/troops.py`, class `TroopDef`); only
the fields the combat engine reads are kept (colour and description are
presentation-only). -/
structure TroopDef where
  name : String
  type : String
  stats : RMap
  deriving Repr

/-- The research-bonus dictionary as consumed by the engine:
`research.get("troop_bonus", {})` and `research.get("trap_damage", 0)`. -/
structure ResearchBonuses where
  troop_bonus : RMap
  trap_damage : ℚ
  deriving Repr

/-- Class `CombatEngine`: troop catalog, hero `total_stats` dictionaries,
aggregated research bonuses. -/
structure CombatEngine where
  troop_defs : List (String × TroopDef)
  heroes : List RMap
  research : ResearchBonuses

/-- `sum(h.total_stats.get("atk", 0) * 0.02 for h in heroes)`. -/
def hero_atk_bonus (heroes : List RMap) : ℚ :=
  heroes.foldl (fun acc hs => acc + algetD hs "atk" 0 * (2 / 100)) 0

def hero_def_bonus (heroes : List RMap) : ℚ :=
  heroes.foldl (fun acc hs => acc + algetD hs "def" 0 * (2 / 100)) 0

/-- `for stat, mult in troop_bonus.items(): if stat in stats: stats[stat] *= (1 + mult)`. -/
def applyTroopBonus (bonus stats : RMap) : RMap :=
  bonus.foldl
    (fun st p => if alhas st p.1 then alset st p.1 (algetD st p.1 0 * (1 + p.2)) else st)
    stats

/-- `build_player_units`: skip non-positive counts and unknown ids, apply
research stat multipliers then hero atk/def bonuses, default stats
`hp 50 / atk 10 / def 5 / speed 5`. -/
def build_player_units (e : CombatEngine) (army : List (String × ℤ)) :
    List BattleUnit :=
  army.filterMap fun (tc : String × ℤ) =>
    if tc.2 ≤ 0 then none
    else
      match alget e.troop_defs tc.1 with
      | none => none
      | some tdef =>
        let stats := applyTroopBonus e.research.troop_bonus tdef.stats
        let stats := alset stats "atk" (algetD stats "atk" 0 * (1 + hero_atk_bonus e.heroes))
        let stats := alset stats "def" (algetD stats "def" 0 * (1 + hero_def_bonus e.heroes))
        let hp := algetD stats "hp" 50
        some {
          troop_id := tc.1, name := tdef.name, troop_type := tdef.type,
          count := tc.2, max_count := tc.2,
          hp_per_unit := hp, total_hp := hp * (tc.2 : ℚ), max_hp := hp * (tc.2 : ℚ),
          atk := algetD stats "atk" 10, defense := algetD stats "def" 5,
          speed := algetD stats "speed" 5, side := true }

/-- `build_enemy_units`: as above but without research or hero bonuses. -/
def build_enemy_units (e : CombatEngine) (army : List (String × ℤ)) :
    List BattleUnit :=
  army.filterMap fun (tc : String × ℤ) =>
    if tc.2 ≤ 0 then none
    else
      match alget e.troop_defs tc.1 with
      | none => none
      | some tdef =>
        let hp := algetD tdef.stats "hp" 50
        some {
          troop_id := tc.1, name := tdef.name, troop_type := tdef.type,
          count := tc.2, max_count := tc.2,
          hp_per_unit := hp, total_hp := hp * (tc.2 : ℚ), max_hp := hp * (tc.2 : ℚ),
          atk := algetD tdef.stats "atk" 10, defense := algetD tdef.stats "def" 5,
          speed := algetD tdef.stats "speed" 5, side := false }

/-- Pre-combat trap damage: `if trap_dmg > 0: eu.take_damage(eu.max_hp * trap_dmg)`. -/
def applyTrap (rate : ℚ) (units : List BattleUnit) : List BattleUnit :=
  if 0 < rate then units.map fun u => (u.take_damage (u.max_hp * rate)).1
  else units

/-- Per-troop losses: `initial[id] - final count`, reported only when
positive.  (`initial` is keyed by the same ids, so the lookup never
misses.) -/
def lossMap (initial : List (String × ℤ)) (units : List BattleUnit) :
    List (String × ℤ) :=
  units.filterMap fun u =>
    match alget initial u.troop_id with
    | some c0 => if 0 < c0 - u.count then some (u.troop_id, c0 - u.count) else none
    | none => none

/-- The result dictionary of `resolve` (the replay log is omitted). -/
structure BattleResult where
  victory : Bool
  player_units : List BattleUnit
  enemy_units : List BattleUnit
  player_losses : List (String × ℤ)
  enemy_losses : List (String × ℤ)
  ticks : ℕ

/-- `CombatEngine.resolve`: build both sides, record initial counts, apply
trap damage to the enemy, fight up to `MAX_TICKS` ticks, then compute the
victory flag and the per-side loss maps. -/
def CombatEngine.resolve (e : CombatEngine) (spread : ℕ → ℚ)
    (player_army enemy_army : List (String × ℤ)) : BattleResult :=
  let p_units := build_player_units e player_army
  let e_units := build_enemy_units e enemy_army
  let p_initial := p_units.map fun u => (u.troop_id, u.count)
  let e_initial := e_units.map fun u => (u.troop_id, u.count)
  let e_units2 := applyTrap e.research.trap_damage e_units
  let units := p_units ++ e_units2
  let order := sortOrder units
  let res := runTicks spread order MAX_TICKS 0 units 0
  let pFinal := res.1.filter fun u => u.side
  let eFinal := res.1.filter fun u => !u.side
  { victory := decide (0 < (pFinal.filter BattleUnit.alive).length) &&
      decide ((eFinal.filter BattleUnit.alive).length = 0),
    player_units := pFinal,
    enemy_units := eFinal,
    player_losses := lossMap p_initial pFinal,
    enemy_losses := lossMap e_initial eFinal,
    ticks := res.2.1 }

/-- The claim's strong-vs table: the three rock-paper-scissors pairs. -/
def strongPairs : List (String × String) :=
  [("infantry", "cavalry"), ("cavalry", "ranged"), ("ranged", "infantry")]

/-- The damage multiplier the code actually applies, written in the claim's
vocabulary: ×1.3 on a strong-vs pair — with siege→siege included, which is
where the code departs from the claim — ×0.75 on a reversed strong-vs pair,
×1.0 otherwise. -/
def amendedMult (a d : String) : ℚ :=
  if (a, d) ∈ strongPairs ∨ (a = "siege" ∧ d = "siege") then 13 / 10
  else if (d, a) ∈ strongPairs then 3 / 4
  else 1

/-- Count nonnegative, and the hp pool bounded by `count * hp_per_unit`
whenever the per-unit hp is positive: preserved by every damage event. -/
def UnitInv (u : BattleUnit) : Prop :=
  0 ≤ u.count ∧ (0 < u.hp_per_unit → u.total_hp ≤ (u.count : ℚ) * u.hp_per_unit)

/-- How one unit slot may evolve during a battle: identity fields frozen,
and — from an invariant state — count never increases. -/
def Devolve (u u2 : BattleUnit) : Prop :=
  u2.troop_id = u.troop_id ∧ u2.side = u.side ∧ u2.hp_per_unit = u.hp_per_unit ∧
    (UnitInv u → UnitInv u2 ∧ u2.count ≤ u.count)

/-- What `build_player_units` / `build_enemy_units` guarantee about a
freshly built unit. -/
def BuiltOK (u : BattleUnit) : Prop :=
  0 < u.count ∧ u.total_hp = u.hp_per_unit * (u.count : ℚ) ∧ u.max_hp = u.total_hp

/-- Sample troop definitions (the spec scenarios' warrior and scout). -/
def warrior_def : TroopDef :=
  { name := "Warrior Bunny", type := "infantry",
    stats := [("hp", 100), ("atk", 20), ("def", 10), ("speed", 5)] }

def scout_def : TroopDef :=
  { name := "Scout Bunny", type := "cavalry",
    stats := [("hp", 40), ("atk", 8), ("def", 2), ("speed", 8)] }

/-- A sample combat engine with no heroes and no research bonuses. -/
def sampleEngine : CombatEngine :=
  { troop_defs := [("warrior_bunny", warrior_def), ("scout_bunny", scout_def)],
    heroes := [],
    research := { troop_bonus := [], trap_damage := 0 } }

/-- A concrete siege battle group (attacker) for the damage-formula claims. -/
def siegeAttacker : BattleUnit :=
  { troop_id := "catapult", name := "Catapult", troop_type := "siege",
    count := 10, max_count := 10, hp_per_unit := 100, total_hp := 1000,
    max_hp := 1000, atk := 10, defense := 0, speed := 1, side := true }

/-- A concrete siege battle group (defender). -/
def siegeDefender : BattleUnit :=
  { troop_id := "ram", name := "Battering Ram", troop_type := "siege",
    count := 5, max_count := 5, hp_per_unit := 100, total_hp := 500,
    max_hp := 500, atk := 5, defense := 0, speed := 1, side := false }

/-- A concrete unit for the `take_damage` witness. -/
def sampleUnit : BattleUnit :=
  { troop_id := "warrior_bunny", name := "Warrior Bunny", troop_type := "infantry",
    count := 3, max_count := 3, hp_per_unit := 10, total_hp := 30,
    max_hp := 30, atk := 20, defense := 10, speed := 5, side := true }

/-! ## Campaign progression (`systems/combat_system.py`, class `CampaignData`)

Only the two fields `is_unlocked` reads are modelled per stage; the enemy
composition, rewards and display fields of `campaign.json` do not enter the
unlock logic. -/

structure CampaignStage where
  requires : Option String
  unlock_next : Option String
  deriving Repr, DecidableEq

structure CampaignData where
  stages : List (String × CampaignStage)
  completed : List String
  deriving Repr, DecidableEq

/-- Python truthiness of `stage.get("requires")`: falsy when the key is
missing or the string is empty. -/
def falsyStr : Option String → Bool
  | none => true
  | some s => s == ""

/-- `is_unlocked`: unknown stage → `False`; no/empty `requires` → `True`;
else `True` if some completed stage's `unlock_next` is this stage, with a
final hard-coded `stage_1` fallback. -/
def CampaignData.is_unlocked (c : CampaignData) (stage_id : String) : Bool :=
  match alget c.stages stage_id with
  | none => false
  | some stage =>
    if falsyStr stage.requires then true
    else if c.stages.any fun sp =>
        sp.2.unlock_next == some stage_id && c.completed.contains sp.1 then true
    else if stage_id = "stage_1" then true
    else false

/-- `complete_stage`: add to the completed set (idempotent). -/
def CampaignData.complete_stage (c : CampaignData) (stage_id : String) : CampaignData :=
  { c with completed :=
      if c.completed.contains stage_id then c.completed else stage_id :: c.completed }

/-- A campaign catalog: the spec scenario's stage_1/stage_2 chain plus a
later stage that has no `requires` field. -/
def sampleCampaign : CampaignData :=
  { stages := [("stage_1", { requires := none, unlock_next := some "stage_2" }),
               ("stage_2", { requires := some "stage_1", unlock_next := some "stage_3" }),
               ("bonus_stage", { requires := none, unlock_next := none })],
    completed := [] }

/-! ## Training queue (`systems/training_system.py` and `entities/troops.py`)

A `TrainingJob` holds a `TroopDef` reference in Python; `update` reads only
its `id`, modelled as `troop_id`.  Counts are troop counts (naturals). -/

/-- `Army` (entities/troops.py): troop_id → count. -/
structure Army where
  troops : List (String × ℤ)
  deriving Repr, DecidableEq

/-- `Army.add`: `troops[troop_id] = troops.get(troop_id, 0) + count`. -/
def Army.add (a : Army) (troop_id : String) (count : ℤ) : Army :=
  { a with troops := alset a.troops troop_id (algetD a.troops troop_id 0 + count) }

/-- `Army.get_count`. -/
def Army.get_count (a : Army) (troop_id : String) : ℤ :=
  algetD a.troops troop_id 0

structure TrainingJob where
  troop_id : String
  total_count : ℕ
  trained_count : ℕ
  time_per_unit : ℚ
  timer : ℚ
  deriving Repr, DecidableEq

/-- `is_complete`: `trained_count >= total_count`. -/
def TrainingJob.is_complete (j : TrainingJob) : Bool :=
  j.total_count ≤ j.trained_count

/-- The re-arming loop of `TrainingSystem.update`:
`while job.timer <= 0 and not job.is_complete: train one unit, re-arm`.
Each pass trains one unit, so `total - trained` is enough fuel: when the
fuel runs out the guard is already false. -/
def trainLoop : ℕ → TrainingJob → Army → TrainingJob × Army
  | 0, j, a => (j, a)
  | f + 1, j, a =>
    if j.timer ≤ 0 ∧ j.trained_count < j.total_count then
      trainLoop f
        (if j.trained_count + 1 < j.total_count then
          { j with trained_count := j.trained_count + 1,
                   timer := j.timer + j.time_per_unit }
        else
          { j with trained_count := j.trained_count + 1, timer := 0 })
        (a.add j.troop_id 1)
    else (j, a)

/-- `TrainingSystem.update(dt)`: only the head job accrues time; when it
completes it is popped and `(troop_id, total_count)` reported. -/
def training_update (dt : ℚ) (queue : List TrainingJob) (army : Army) :
    List TrainingJob × Army × List (String × ℕ) :=
  match queue with
  | [] => ([], army, [])
  | job :: rest =>
    if (trainLoop (job.total_count - job.trained_count)
        { job with timer := job.timer - dt } army).1.is_complete then
      (rest,
       (trainLoop (job.total_count - job.trained_count)
         { job with timer := job.timer - dt } army).2,
       [((trainLoop (job.total_count - job.trained_count)
           { job with timer := job.timer - dt } army).1.troop_id,
         (trainLoop (job.total_count - job.trained_count)
           { job with timer := job.timer - dt } army).1.total_count)])
    else
      ((trainLoop (job.total_count - job.trained_count)
         { job with timer := job.timer - dt } army).1 :: rest,
       (trainLoop (job.total_count - job.trained_count)
         { job with timer := job.timer - dt } army).2,
       [])

/-- A sequence of `update` calls, concatenating the completion reports. -/
def training_run (dts : List ℚ) (queue : List TrainingJob) (army : Army) :
    List TrainingJob × Army × List (String × ℕ) :=
  match dts with
  | [] => (queue, army, [])
  | dt :: rest =>
    ((training_run rest (training_update dt queue army).1
        (training_update dt queue army).2.1).1,
     (training_run rest (training_update dt queue army).1
        (training_update dt queue army).2.1).2.1,
     (training_update dt queue army).2.2 ++
       (training_run rest (training_update dt queue army).1
         (training_update dt queue army).2.1).2.2)

/-- The training job of the spec's training scenario. -/
def sampleJob : TrainingJob :=
  { troop_id := "warrior_bunny", total_count := 10, trained_count := 0,
    time_per_unit := 2, timer := 2 }

/-! ## Research tree (`systems/research_system.py`)

Only the fields `start_research` reads are kept in `ResearchDef`
(name/category/description/effect are not consulted by it). -/

structure ResearchDef where
  cost : List (String × ℚ)
  time : ℚ
  requires : List String
  requires_academy : ℤ
  deriving Repr

structure ResearchSystem where
  resource_mgr : ResourceManager
  defs : List (String × ResearchDef)
  completed : List String
  current : Option String
  timer : ℚ
  total_time : ℚ

/-- `is_researching`: `current is not None`. -/
def ResearchSystem.is_researching (s : ResearchSystem) : Bool :=
  s.current.isSome

/-- `is_available(rid, academy_level)`. -/
def ResearchSystem.is_available (s : ResearchSystem) (rid : String)
    (academy_level : ℤ) : Bool :=
  match alget s.defs rid with
  | none => false
  | some rdef =>
    if s.completed.contains rid then false
    else if academy_level < rdef.requires_academy then false
    else rdef.requires.all fun req => s.completed.contains req

/-- `start_research(rid, academy_level)`, returning `(state, success, reason)`;
`none` models a propagated exception from `pay`. -/
def ResearchSystem.start_research (s : ResearchSystem) (rid : String)
    (academy_level : ℤ) : Option (ResearchSystem × Bool × String) :=
  if s.is_researching then some (s, false, "Already researching")
  else if !s.is_available rid academy_level then some (s, false, "Requirements not met")
  else
    match alget s.defs rid with
    | none => none
    | some rdef =>
      match s.resource_mgr.pay rdef.cost with
      | none => none
      | some (m2, false) =>
        some ({ s with resource_mgr := m2 }, false, "Not enough resources")
      | some (m2, true) =>
        some ({ s with resource_mgr := m2
                       current := some rid
                       timer := rdef.time
                       total_time := rdef.time }, true, "")

/-! ## Quest tracker (`systems/quest_system.py`)

Only the definition fields `claim` reads are kept. `time.time()` is the
`current_time` parameter. -/

structure QuestDef where
  category : String
  target : ℤ
  rewards : List (String × ℚ)
  repeatable : Bool
  deriving Repr

structure Quest where
  definition : QuestDef
  progress : ℤ
  claimed : Bool
  last_claim_time : ℚ
  deriving Repr

/-- `is_complete`: `progress >= target`. -/
def Quest.is_complete (q : Quest) : Bool :=
  q.definition.target ≤ q.progress

/-- `can_claim_daily`: non-daily quests always pass; dailies need 24 hours
(86400 s) since the last claim. -/
def Quest.can_claim_daily (q : Quest) (current_time : ℚ) : Bool :=
  if q.definition.category ≠ "daily" then true
  else 86400 ≤ current_time - q.last_claim_time

/-- `reset` (for repeatable quests). -/
def Quest.reset (q : Quest) : Quest :=
  { q with progress := 0, claimed := false }

/-- `QuestSystem.claim(quest_id)`: validity checks, then credit every non-xp
reward to the ledger, mark claimed, stamp the claim time, and reset if the
definition is repeatable.  Returns the updated quests, ledger, and success. -/
def quest_claim (quests : List (String × Quest)) (mgr : ResourceManager)
    (quest_id : String) (current_time : ℚ) :
    List (String × Quest) × ResourceManager × Bool :=
  match alget quests quest_id with
  | none => (quests, mgr, false)
  | some q =>
    if !q.is_complete || q.claimed then (quests, mgr, false)
    else if !q.can_claim_daily current_time then (quests, mgr, false)
    else
      (alset quests quest_id
        (if q.definition.repeatable then
          Quest.reset { q with claimed := true, last_claim_time := current_time }
        else { q with claimed := true, last_claim_time := current_time }),
       q.definition.rewards.foldl
         (fun m p => if p.1 = "xp" then m else m.add p.1 p.2) mgr,
       true)

/-! ## Buildings (`entities/buildings.py`)

Integer-keyed level lookup; only the `production` table of a level entry is
read by the modelled operations (costs and build times live in the same
JSON record but are not consulted by `production`/`update`). -/

/-- First-match lookup in an integer-keyed association list. -/
def ilget {α : Type} : List (ℤ × α) → ℤ → Option α
  | [], _ => none
  | (k2, v) :: rest, k => if k2 = k then some v else ilget rest k

structure BuildingLevel where
  production : RMap
  deriving Repr

structure BuildingDef where
  id : String
  levels : List (ℤ × BuildingLevel)
  deriving Repr

/-- `production_for(level)`: `levels.get(level).get("production", {})`,
empty when the level has no data. -/
def BuildingDef.production_for (d : BuildingDef) (level : ℤ) : RMap :=
  match ilget d.levels level with
  | some data => data.production
  | none => []

structure Building where
  definition : BuildingDef
  grid_x : ℤ
  grid_y : ℤ
  level : ℤ
  building : Bool
  build_timer : ℚ
  build_total : ℚ
  pending_level : ℤ
  click_timer : ℚ
  click_available : Bool

/-- `is_resource_building`: a hard-coded id list. -/
def Building.is_resource_building (b : Building) : Bool :=
  b.definition.id ∈ ["carrot_farm", "lumber_burrow", "gold_mine", "stone_quarry"]

/-- `production`: empty while under construction, else the definition's
table for the current level (the click mechanic is disabled — see the
source comment "Stone quarries produce automatically"). -/
def Building.production (b : Building) : RMap :=
  if b.building then [] else b.definition.production_for b.level

/-- `update(dt)`: advance the 10-second click timer for idle resource
buildings, then tick the construction timer; returns the updated building
and the just-completed flag. -/
def Building.update (b : Building) (dt : ℚ) : Building × Bool :=
  let b1 := if b.is_resource_building && !b.building then
      (if 10 ≤ b.click_timer + dt then
        { b with click_timer := 0, click_available := true }
      else { b with click_timer := b.click_timer + dt })
    else b
  if !b1.building then (b1, false)
  else
    if b1.build_timer - dt ≤ 0 then
      ({ b1 with build_timer := 0, building := false, level := b1.pending_level }, true)
    else ({ b1 with build_timer := b1.build_timer - dt }, false)

/-- The definition of a concrete carrot farm. -/
def sampleBuildingDef : BuildingDef :=
  { id := "carrot_farm", levels := [(1, { production := [("carrots", 2)] })] }

/-- A concrete carrot farm for the building witness. -/
def sampleBuilding : Building :=
  { definition := sampleBuildingDef, grid_x := 0, grid_y := 0, level := 1,
    building := false, build_timer := 0, build_total := 0, pending_level := 1,
    click_timer := 3, click_available := false }

/-- A concrete quest definition for the quest witness. -/
def sampleQuestDef : QuestDef :=
  { category := "achievement", target := 5,
    rewards := [("gold", 100), ("xp", 50)], repeatable := false }

/-- A concrete completed, unclaimed quest. -/
def sampleQuest : Quest :=
  { definition := sampleQuestDef, progress := 5, claimed := false,
    last_claim_time := 0 }

@[simp] theorem alget_nil {α : Type} (k : String) : alget ([] : List (String × α)) k = none := rfl

theorem alget_cons {α : Type} (k2 : String) (v : α) (rest : List (String × α)) (k : String) :
    alget ((k2, v) :: rest) k = if k2 = k then some v else alget rest k := rfl

@[simp] theorem alget_alset_self {α : Type} (m : List (String × α)) (k : String) (v : α) :
    alget (alset m k v) k = some v := by
  induction m with
  | nil => simp [alget, alset]
  | cons p rest ih =>
    obtain ⟨k2, v2⟩ := p
    by_cases h : k2 = k
    · simp [alget, alset, h]
    · simp [alget, alset, h, ih]

theorem alget_alset_ne {α : Type} (m : List (String × α)) (k k' : String) (v : α)
    (h : k' ≠ k) : alget (alset m k v) k' = alget m k' := by
  have h2 : k ≠ k' := Ne.symm h
  induction m with
  | nil => simp [alget, alset, h2]
  | cons p rest ih =>
    obtain ⟨k2, v2⟩ := p
    by_cases hk : k2 = k
    · subst hk
      simp [alget, alset, h2]
    · simp only [alset, hk, if_false, alget_cons]
      by_cases h3 : k2 = k'
      · simp [h3]
      · simp [h3, ih]

theorem alget_alset {α : Type} (m : List (String × α)) (k k' : String) (v : α) :
    alget (alset m k v) k' = if k' = k then some v else alget m k' := by
  by_cases h : k' = k
  · subst h; simp
  · simp [h, alget_alset_ne m k k' v h]

theorem alhas_alset {α : Type} (m : List (String × α)) (k k' : String) (v : α)
    (h : alhas m k' = true) : alhas (alset m k v) k' = true := by
  unfold alhas at *
  rw [alget_alset]
  by_cases hk : k' = k <;> simp [hk] at h ⊢
  exact h

/-- A key absent from the key list looks up to `none`. -/
theorem alget_eq_none_of_not_mem {α : Type} (m : List (String × α)) (k : String)
    (h : k ∉ m.map Prod.fst) : alget m k = none := by
  induction m with
  | nil => rfl
  | cons p rest ih =>
    obtain ⟨k2, v2⟩ := p
    simp only [List.map_cons, List.mem_cons] at h
    push_neg at h
    simp [alget, Ne.symm h.1, ih h.2]

theorem alget_mem {α : Type} {m : List (String × α)} {k : String} {v : α}
    (h : alget m k = some v) : (k, v) ∈ m := by
  induction m with
  | nil => simp [alget] at h
  | cons p rest ih =>
    obtain ⟨k2, v2⟩ := p
    rw [alget_cons] at h
    by_cases hk : k2 = k
    · subst hk
      simp at h
      simp [h]
    · simp [hk] at h
      exact List.mem_cons_of_mem _ (ih h)

theorem alget_of_mem_nodup {α : Type} {m : List (String × α)} {p : String × α}
    (hp : p ∈ m) (hnd : (m.map Prod.fst).Nodup) : alget m p.1 = some p.2 := by
  induction m with
  | nil => simp at hp
  | cons q rest ih =>
    obtain ⟨k2, v2⟩ := q
    simp only [List.map_cons, List.nodup_cons] at hnd
    rcases List.mem_cons.mp hp with hq | hq
    · subst hq
      simp [alget_cons]
    · have hne : k2 ≠ p.1 := by
        intro hh
        exact hnd.1 (hh ▸ List.mem_map_of_mem Prod.fst hq)
      rw [alget_cons, if_neg hne]
      exact ih hq hnd.2

theorem capacity_add (s : ResourceManager) (rid : String) (a : ℚ) :
    (s.add rid a).capacity = s.capacity := by
  unfold ResourceManager.add
  cases alget s.capacity rid <;> rfl

theorem resources_add (s : ResourceManager) (rid : String) (a : ℚ) :
    (s.add rid a).resources =
      match alget s.capacity rid with
      | some cap => alset s.resources rid (min (algetD s.resources rid 0 + a) cap)
      | none => alset s.resources rid (algetD s.resources rid 0 + a) := by
  unfold ResourceManager.add
  cases alget s.capacity rid <;> rfl

theorem InBounds_add (s : ResourceManager) (rid : String) (a : ℚ)
    (h : InBounds s) (hc : CapNonneg s) (ha : 0 ≤ a) : InBounds (s.add rid a) := by
  have hcur : 0 ≤ algetD s.resources rid 0 := by
    unfold algetD
    cases hr : alget s.resources rid with
    | none => simp
    | some v => simpa using (h rid v hr).1
  intro k v hv
  rw [capacity_add]
  rw [resources_add] at hv
  cases hcap : alget s.capacity rid with
  | some cap =>
    rw [hcap] at hv
    rw [alget_alset] at hv
    by_cases hk : k = rid
    · subst hk
      simp at hv
      subst hv
      refine ⟨le_min (by linarith) (hc _ _ hcap), ?_⟩
      intro c hcc
      rw [hcap] at hcc
      cases hcc
      exact min_le_right _ _
    · simp [hk] at hv
      exact h k v hv
  | none =>
    rw [hcap] at hv
    rw [alget_alset] at hv
    by_cases hk : k = rid
    · subst hk
      simp at hv
      subst hv
      refine ⟨by linarith, ?_⟩
      intro c hcc
      rw [hcap] at hcc
      cases hcc
    · simp [hk] at hv
      exact h k v hv

theorem alhas_add (s : ResourceManager) (rid : String) (a : ℚ) (k : String)
    (h : alhas s.resources k = true) : alhas (s.add rid a).resources k = true := by
  rw [resources_add]
  cases alget s.capacity rid <;> exact alhas_alset _ _ _ _ h

theorem spend_insufficient (s : ResourceManager) (rid : String) (amount : ℚ)
    (h : algetD s.resources rid 0 < amount) : s.spend rid amount = some (s, false) := by
  unfold ResourceManager.spend
  rw [if_neg (not_le.mpr h)]

theorem spend_spec (s : ResourceManager) (rid : String) (a : ℚ)
    (h : InBounds s) (ha : 0 ≤ a) (hk : alhas s.resources rid = true) :
    ∃ s2 b, s.spend rid a = some (s2, b) ∧ InBounds s2 ∧
      s2.capacity = s.capacity ∧
      (∀ k, alhas s.resources k = true → alhas s2.resources k = true) ∧
      (b = false → s2 = s) := by
  unfold ResourceManager.spend
  by_cases hle : a ≤ algetD s.resources rid 0
  · rw [if_pos hle]
    unfold alhas at hk
    cases hr : alget s.resources rid with
    | none => rw [hr] at hk; simp at hk
    | some cur =>
      refine ⟨_, true, rfl, ?_, rfl, ?_, by simp⟩
      · intro k v hv
        simp only at hv
        rw [alget_alset] at hv
        by_cases hkk : k = rid
        · subst hkk
          simp at hv
          subst hv
          have hcur := h k cur hr
          have hcurD : algetD s.resources k 0 = cur := by unfold algetD; rw [hr]; rfl
          rw [hcurD] at hle
          refine ⟨by linarith, ?_⟩
          intro c hcc
          have := hcur.2 c hcc
          have h0 := hcur.1
          linarith
        · simp [hkk] at hv
          exact h k v hv
      · intro k hkh
        exact alhas_alset _ _ _ _ hkh
  · rw [if_neg hle]
    exact ⟨s, false, rfl, h, rfl, fun k hkh => hkh, fun _ => rfl⟩

theorem payLoop_spec (cost : List (String × ℚ)) : ∀ (m : RMap),
    (∀ p ∈ cost, alhas m p.1 = true) → (cost.map Prod.fst).Nodup →
    ∃ m2, payLoop m cost = some m2 ∧
      ∀ k, alget m2 k =
        match alget cost k with
        | some a => (alget m k).map (fun x => x - a)
        | none => alget m k := by
  induction cost with
  | nil =>
    intro m _ _
    exact ⟨m, rfl, fun k => by simp [alget]⟩
  | cons p rest ih =>
    intro m hkeys hnd
    obtain ⟨r, amt⟩ := p
    have hr : alhas m r = true := hkeys (r, amt) (List.mem_cons_self _ _)
    unfold alhas at hr
    cases hm : alget m r with
    | none => rw [hm] at hr; simp at hr
    | some cur =>
      simp only [List.map_cons, List.nodup_cons] at hnd
      have hkeys2 : ∀ p ∈ rest, alhas (alset m r (cur - amt)) p.1 = true := by
        intro p hp
        exact alhas_alset _ _ _ _ (hkeys p (List.mem_cons_of_mem _ hp))
      obtain ⟨m2, hm2, hprop⟩ := ih (alset m r (cur - amt)) hkeys2 hnd.2
      refine ⟨m2, ?_, ?_⟩
      · unfold payLoop
        rw [hm]
        exact hm2
      · intro k
        have hk2 := hprop k
        rw [alget_cons]
        by_cases hk : r = k
        · subst hk
          have hrn : alget rest r = none := by
            apply alget_eq_none_of_not_mem
            exact hnd.1
          rw [hrn] at hk2
          rw [alget_alset_self] at hk2
          simp only [if_pos rfl]
          rw [hk2, hm]
          rfl
        · have : alget (alset m r (cur - amt)) k = alget m k :=
            alget_alset_ne _ _ _ _ (Ne.symm hk)
          rw [this] at hk2
          rw [if_neg hk]
          exact hk2

theorem pay_not_afford (s : ResourceManager) (cost : List (String × ℚ))
    (h : s.can_afford cost = false) : s.pay cost = some (s, false) := by
  unfold ResourceManager.pay
  rw [h]
  rfl

theorem pay_spec (s : ResourceManager) (cost : List (String × ℚ))
    (h : InBounds s)
    (hks : ∀ p ∈ cost, alhas s.resources p.1 = true)
    (hamt : ∀ p ∈ cost, 0 ≤ p.2)
    (hnd : (cost.map Prod.fst).Nodup) :
    ∃ s2 b, s.pay cost = some (s2, b) ∧ InBounds s2 ∧
      s2.capacity = s.capacity ∧
      (∀ k, alhas s.resources k = true → alhas s2.resources k = true) ∧
      (b = false → s2 = s) ∧
      (b = true → ∀ p ∈ cost,
        alget s2.resources p.1 = (alget s.resources p.1).map (fun x => x - p.2)) := by
  unfold ResourceManager.pay
  cases haff : s.can_afford cost with
  | false =>
    exact ⟨s, false, rfl, h, rfl, fun k hk => hk, fun _ => rfl, by simp⟩
  | true =>
    obtain ⟨m2, hm2, hprop⟩ := payLoop_spec cost s.resources hks hnd
    rw [hm2]
    refine ⟨{ s with resources := m2 }, true, rfl, ?_, rfl, ?_, by simp, ?_⟩
    · -- InBounds after a successful payment
      intro k v hv
      simp only at hv ⊢
      have hk2 := hprop k
      cases hc : alget cost k with
      | none =>
        rw [hc] at hk2
        rw [hk2] at hv
        exact h k v hv
      | some a =>
        rw [hc] at hk2
        rw [hk2] at hv
        cases hm : alget s.resources k with
        | none => rw [hm] at hv; simp at hv
        | some cur =>
          rw [hm] at hv
          simp at hv
          have hmem := alget_mem hc
          have ha : 0 ≤ a := hamt (k, a) hmem
          have haford : a ≤ algetD s.resources k 0 := by
            have := List.all_eq_true.mp haff (k, a) hmem
            simpa using this
          have hcurD : algetD s.resources k 0 = cur := by unfold algetD; rw [hm]; rfl
          rw [hcurD] at haford
          have hb := h k cur hm
          refine ⟨by linarith [hv], ?_⟩
          intro c hcc
          have hbc := hb.2 c hcc
          linarith [hv]
    · intro k hk
      unfold alhas at hk ⊢
      have hk2 := hprop k
      cases hc : alget cost k with
      | none => rw [hc] at hk2; rw [hk2]; exact hk
      | some a =>
        rw [hc] at hk2
        rw [hk2]
        cases hm : alget s.resources k with
        | none => rw [hm] at hk; simp at hk
        | some cur => simp
    · intro _ p hp
      have hk2 := hprop p.1
      have hc : alget cost p.1 = some p.2 := alget_of_mem_nodup hp hnd
      rw [hc] at hk2
      exact hk2

theorem runOps_inv (s0 : ResourceManager) (hc0 : CapNonneg s0) (ops : List ROp)
    (hWf : ∀ op ∈ ops, WfOp s0 op) : ∀ (s : ResourceManager),
    InBounds s → s.capacity = s0.capacity →
    (∀ k, alhas s0.resources k = true → alhas s.resources k = true) →
    ∃ s2, runOps s ops = some s2 ∧ InBounds s2 ∧ s2.capacity = s0.capacity ∧
      (∀ k, alhas s0.resources k = true → alhas s2.resources k = true) := by
  induction ops with
  | nil =>
    intro s hIB hcap hmono
    exact ⟨s, rfl, hIB, hcap, hmono⟩
  | cons op rest ih =>
    intro s hIB hcap hmono
    have hWfop := hWf op (List.mem_cons_self _ _)
    have hWfrest : ∀ o ∈ rest, WfOp s0 o := fun o ho => hWf o (List.mem_cons_of_mem _ ho)
    have hcN : CapNonneg s := by
      intro k c hkc
      exact hc0 k c (by rw [← hcap]; exact hkc)
    cases op with
    | add rid a =>
      have ha : 0 ≤ a := hWfop
      obtain ⟨s2, hrun, hIB2, hcap2, hmono2⟩ :=
        ih hWfrest (s.add rid a) (InBounds_add s rid a hIB hcN ha)
          (by rw [capacity_add]; exact hcap)
          (fun k hk => alhas_add s rid a k (hmono k hk))
      exact ⟨s2, by simpa [runOps, stepOp] using hrun, hIB2, hcap2, hmono2⟩
    | spend rid a =>
      obtain ⟨ha, hk0⟩ := hWfop
      obtain ⟨s1, b, hsp, hIB1, hcap1, hmono1, _⟩ :=
        spend_spec s rid a hIB ha (hmono rid hk0)
      obtain ⟨s2, hrun, hIB2, hcap2, hmono2⟩ :=
        ih hWfrest s1 hIB1 (by rw [hcap1]; exact hcap)
          (fun k hk => hmono1 k (hmono k hk))
      refine ⟨s2, ?_, hIB2, hcap2, hmono2⟩
      simp only [runOps, stepOp, hsp, Option.map_some]
      exact hrun
    | pay c =>
      obtain ⟨hpc, hnd⟩ := hWfop
      obtain ⟨s1, b, hsp, hIB1, hcap1, hmono1, _, _⟩ :=
        pay_spec s c hIB (fun p hp => hmono p.1 (hpc p hp).2)
          (fun p hp => (hpc p hp).1) hnd
      obtain ⟨s2, hrun, hIB2, hcap2, hmono2⟩ :=
        ih hWfrest s1 hIB1 (by rw [hcap1]; exact hcap)
          (fun k hk => hmono1 k (hmono k hk))
      refine ⟨s2, ?_, hIB2, hcap2, hmono2⟩
      simp only [runOps, stepOp, hsp, Option.map_some]
      exact hrun

/-- C2 (amended): for every sequence of `add`/`pay`/`spend` calls whose amounts
are nonnegative and whose `spend`/`pay` calls name only resource ids present in
the initial ledger (cost maps having distinct keys, as Python dicts do),
starting from a state with `0 ≤ amount ≤ capacity` for every resource:
every amount stays between 0 and its capacity after each call and no call
raises; `spend` returns `False` and changes nothing when the balance is
insufficient; and `pay(cost)` either deducts the full cost from every listed
resource and returns `True`, or deducts nothing and returns `False`. -/
theorem ledger_conservation_amended
    (s0 : ResourceManager) (ops : List ROp)
    (hIB : InBounds s0) (hCap : CapNonneg s0)
    (hWf : ∀ op ∈ ops, WfOp s0 op) :
    (∀ pre suf, ops = pre ++ suf → ∃ s2, runOps s0 pre = some s2 ∧ InBounds s2) ∧
    (∀ (s : ResourceManager) (rid : String) (amount : ℚ),
        algetD s.resources rid 0 < amount → s.spend rid amount = some (s, false)) ∧
    (∀ (s : ResourceManager) (cost : List (String × ℚ)), InBounds s →
        (∀ p ∈ cost, 0 ≤ p.2 ∧ alhas s.resources p.1 = true) →
        (cost.map Prod.fst).Nodup →
        (∃ s2, s.pay cost = some (s2, true) ∧
            ∀ p ∈ cost, alget s2.resources p.1 =
              (alget s.resources p.1).map (fun x => x - p.2)) ∨
          s.pay cost = some (s, false)) := by
  refine ⟨?_, ?_, ?_⟩
  · intro pre suf hsplit
    have hWfpre : ∀ op ∈ pre, WfOp s0 op := by
      intro op hop
      exact hWf op (hsplit ▸ List.mem_append_left suf hop)
    obtain ⟨s2, hrun, hIB2, _, _⟩ :=
      runOps_inv s0 hCap pre hWfpre s0 hIB rfl (fun _ hk => hk)
    exact ⟨s2, hrun, hIB2⟩
  · intro s rid amount hlt
    exact spend_insufficient s rid amount hlt
  · intro s cost hIBs hwf hnd
    obtain ⟨s2, b, hp, _, _, _, hfalse, htrue⟩ :=
      pay_spec s cost hIBs (fun p hp => (hwf p hp).2) (fun p hp => (hwf p hp).1) hnd
    cases b with
    | true => exact Or.inl ⟨s2, hp, htrue rfl⟩
    | false => exact Or.inr (by rw [hp, hfalse rfl])

theorem wood_ledger_inbounds : InBounds ⟨[("wood", 5)], [("wood", 10)]⟩ := by
  intro k v hv
  by_cases hk : "wood" = k
  · subst hk
    rw [alget_cons, if_pos rfl] at hv
    cases hv
    refine ⟨by norm_num, ?_⟩
    intro c hc
    rw [alget_cons, if_pos rfl] at hc
    cases hc
    norm_num
  · rw [alget_cons, if_neg hk] at hv
    simp at hv

theorem wood_ledger_capnonneg : CapNonneg ⟨[("wood", 5)], [("wood", 10)]⟩ := by
  intro k c hc
  by_cases hk : "wood" = k
  · subst hk
    rw [alget_cons, if_pos rfl] at hc
    cases hc
    norm_num
  · rw [alget_cons, if_neg hk] at hc
    simp at hc

/-- C2 counterexample: from the in-bounds state `wood = 5, capacity 10`, the
single call `add("wood", -7)` succeeds and leaves the wood amount at `-2`,
below zero — so the claim as stated (over all call sequences, with no
sign restriction on amounts) is false. -/
theorem ledger_conservation_counterexample :
    InBounds ⟨[("wood", 5)], [("wood", 10)]⟩ ∧
    CapNonneg ⟨[("wood", 5)], [("wood", 10)]⟩ ∧
    runOps ⟨[("wood", 5)], [("wood", 10)]⟩ [ROp.add "wood" (-7)] =
      some ⟨[("wood", -2)], [("wood", 10)]⟩ ∧
    algetD ([("wood", -2)] : RMap) "wood" 0 < 0 := by
  refine ⟨wood_ledger_inbounds, wood_ledger_capnonneg, ?_, ?_⟩
  · norm_num [runOps, stepOp, ResourceManager.add, alget, algetD, alset]
  · norm_num [algetD, alget]

/-- Witness for the amended C2 at a concrete ledger and call sequence. -/
theorem ledger_conservation_witness :
    (∀ pre suf,
        [ROp.add "wood" 3, ROp.spend "wood" 2, ROp.pay [("wood", 1)]] = pre ++ suf →
        ∃ s2, runOps ⟨[("wood", 5)], [("wood", 10)]⟩ pre = some s2 ∧ InBounds s2) ∧
    (∀ (s : ResourceManager) (rid : String) (amount : ℚ),
        algetD s.resources rid 0 < amount → s.spend rid amount = some (s, false)) ∧
    (∀ (s : ResourceManager) (cost : List (String × ℚ)), InBounds s →
        (∀ p ∈ cost, 0 ≤ p.2 ∧ alhas s.resources p.1 = true) →
        (cost.map Prod.fst).Nodup →
        (∃ s2, s.pay cost = some (s2, true) ∧
            ∀ p ∈ cost, alget s2.resources p.1 =
              (alget s.resources p.1).map (fun x => x - p.2)) ∨
          s.pay cost = some (s, false)) := by
  exact ledger_conservation_amended ⟨[("wood", 5)], [("wood", 10)]⟩
    [ROp.add "wood" 3, ROp.spend "wood" 2, ROp.pay [("wood", 1)]]
    wood_ledger_inbounds wood_ledger_capnonneg
    (by
      intro op hop
      simp only [List.mem_cons] at hop
      rcases hop with h | h | h | h
      · subst h; exact by norm_num [WfOp]
      · subst h
        refine ⟨by norm_num, by decide⟩
      · subst h
        refine ⟨?_, by decide⟩
        intro p hp
        simp only [List.mem_singleton] at hp
        subst hp
        exact ⟨by norm_num, by decide⟩
      · simp at h)

/-! ### Combat: per-unit damage lemmas -/

theorem take_damage_total_hp (u : BattleUnit) (d : ℚ) :
    (u.take_damage d).1.total_hp = max 0 (u.total_hp - d) := rfl

theorem take_damage_frozen (u : BattleUnit) (d : ℚ) :
    (u.take_damage d).1.troop_id = u.troop_id ∧
    (u.take_damage d).1.side = u.side ∧
    (u.take_damage d).1.hp_per_unit = u.hp_per_unit := ⟨rfl, rfl, rfl⟩

theorem take_damage_count_inv (u : BattleUnit) (d : ℚ)
    (h : UnitInv u) (hd : 0 ≤ d ∨ u.hp_per_unit ≤ 0) :
    UnitInv (u.take_damage d).1 ∧ (u.take_damage d).1.count ≤ u.count := by
  obtain ⟨hc, hbound⟩ := h
  unfold BattleUnit.take_damage UnitInv
  simp only
  have hp2nn : (0 : ℚ) ≤ max 0 (u.total_hp - d) := le_max_left 0 _
  by_cases hpos : 0 < max 0 (u.total_hp - d)
  · rw [if_pos hpos]
    by_cases hu : 0 < u.hp_per_unit
    · have hdnn : 0 ≤ d := by
        rcases hd with hdl | hdr
        · exact hdl
        · linarith
      have hle : max 0 (u.total_hp - d) ≤ (u.count : ℚ) * u.hp_per_unit := by
        have hb := hbound hu
        have h2 : (0 : ℚ) ≤ (u.count : ℚ) * u.hp_per_unit :=
          mul_nonneg (by exact_mod_cast hc) (le_of_lt hu)
        exact max_le h2 (by linarith)
      have hceil_le : ⌈max 0 (u.total_hp - d) / u.hp_per_unit⌉ ≤ u.count := by
        rw [Int.ceil_le, div_le_iff hu]
        exact_mod_cast hle
      have hceil_pos : 0 < ⌈max 0 (u.total_hp - d) / u.hp_per_unit⌉ := by
        rw [Int.ceil_pos]
        exact div_pos hpos hu
      refine ⟨⟨le_max_left 0 _, ?_⟩, max_le hc hceil_le⟩
      intro _
      have hmax : max 0 ⌈max 0 (u.total_hp - d) / u.hp_per_unit⌉ =
          ⌈max 0 (u.total_hp - d) / u.hp_per_unit⌉ :=
        max_eq_right (le_of_lt hceil_pos)
      rw [hmax]
      have hlc := Int.le_ceil (max 0 (u.total_hp - d) / u.hp_per_unit)
      rw [div_le_iff hu] at hlc
      exact hlc
    · push_neg at hu
      have hzero : max 0 ⌈max 0 (u.total_hp - d) / u.hp_per_unit⌉ = 0 := by
        rcases lt_or_eq_of_le hu with hlt | heq
        · have hdivnp : max 0 (u.total_hp - d) / u.hp_per_unit ≤ 0 :=
            div_nonpos_iff.mpr (Or.inl ⟨hp2nn, le_of_lt hlt⟩)
          have : ⌈max 0 (u.total_hp - d) / u.hp_per_unit⌉ ≤ 0 := by
            rw [Int.ceil_le]
            exact_mod_cast hdivnp
          exact max_eq_left this
        · rw [heq, div_zero]
          simp
      rw [hzero]
      refine ⟨⟨le_refl 0, ?_⟩, hc⟩
      intro hcontra
      exact absurd hcontra (not_lt.mpr hu)
  · rw [if_neg hpos]
    have hp2eq : max 0 (u.total_hp - d) = 0 := le_antisymm (not_lt.mp hpos) hp2nn
    refine ⟨⟨le_refl 0, ?_⟩, hc⟩
    intro _
    rw [hp2eq]
    simp

theorem Devolve_refl (u : BattleUnit) : Devolve u u :=
  ⟨rfl, rfl, rfl, fun h => ⟨h, le_refl _⟩⟩

theorem Devolve_trans {u v w : BattleUnit} (h1 : Devolve u v) (h2 : Devolve v w) :
    Devolve u w := by
  obtain ⟨hid1, hs1, hh1, hi1⟩ := h1
  obtain ⟨hid2, hs2, hh2, hi2⟩ := h2
  refine ⟨hid2.trans hid1, hs2.trans hs1, hh2.trans hh1, ?_⟩
  intro hu
  obtain ⟨hv, hcv⟩ := hi1 hu
  obtain ⟨hw, hcw⟩ := hi2 hv
  exact ⟨hw, hcw.trans hcv⟩

theorem take_damage_devolve (u : BattleUnit) (d : ℚ)
    (hd : 0 ≤ d ∨ u.hp_per_unit ≤ 0) : Devolve u (u.take_damage d).1 :=
  ⟨rfl, rfl, rfl, fun h => take_damage_count_inv u d h hd⟩

theorem calc_damage_nonneg (a d : BattleUnit) (s : ℚ) (hs : 0 ≤ s) :
    0 ≤ calc_damage a d s := by
  unfold calc_damage
  have h1 : (0 : ℚ) ≤ max 1 (a.atk * (a.count : ℚ) - d.defense * (1 / 2)) :=
    le_trans zero_le_one (le_max_left 1 _)
  have h2 : (0 : ℚ) ≤
      (if TYPE_ADVANTAGE a.troop_type = some d.troop_type then
        max 1 (a.atk * (a.count : ℚ) - d.defense * (1 / 2)) * (13 / 10)
      else if TYPE_ADVANTAGE d.troop_type = some a.troop_type then
        max 1 (a.atk * (a.count : ℚ) - d.defense * (1 / 2)) * (3 / 4)
      else max 1 (a.atk * (a.count : ℚ) - d.defense * (1 / 2))) := by
    split_ifs <;> positivity
  exact mul_nonneg h2 hs

/-! ### Combat: list-level evolution of the unit list -/

theorem forall₂_devolve_refl (l : List BattleUnit) : List.Forall₂ Devolve l l :=
  List.forall₂_same.mpr fun u _ => Devolve_refl u

theorem forall₂_devolve_trans :
    ∀ {a b c : List BattleUnit}, List.Forall₂ Devolve a b →
      List.Forall₂ Devolve b c → List.Forall₂ Devolve a c := by
  intro a b c hab
  induction hab generalizing c with
  | nil =>
    intro h
    cases h
    exact List.Forall₂.nil
  | cons hd tl ih =>
    intro h
    cases h with
    | cons hd2 tl2 => exact List.Forall₂.cons (Devolve_trans hd hd2) (ih tl2)

theorem set_devolve : ∀ (units : List BattleUnit) (i : ℕ) (t t2 : BattleUnit),
    units.get? i = some t → Devolve t t2 →
    List.Forall₂ Devolve units (units.set i t2) := by
  intro units
  induction units with
  | nil => intro i t t2 hg; simp at hg
  | cons v rest ih =>
    intro i t t2 hg hdev
    cases i with
    | zero =>
      simp at hg
      subst hg
      exact List.Forall₂.cons hdev (forall₂_devolve_refl rest)
    | succ j =>
      simp only [List.get?_cons_succ] at hg
      simpa [List.set] using List.Forall₂.cons (Devolve_refl v) (ih j t t2 hg hdev)

theorem aliveIdxFrom_mem {b : Bool} :
    ∀ (l : List BattleUnit) (n i : ℕ) (u : BattleUnit),
    (i, u) ∈ aliveIdxFrom b n l →
    n ≤ i ∧ l.get? (i - n) = some u ∧ u.side = b ∧ u.alive = true := by
  intro l
  induction l with
  | nil => intro n i u h; simp [aliveIdxFrom] at h
  | cons v rest ih =>
    intro n i u h
    unfold aliveIdxFrom at h
    by_cases hcond : (v.side == b && v.alive) = true
    · rw [if_pos hcond] at h
      simp only [Bool.and_eq_true, beq_iff_eq] at hcond
      rcases List.mem_cons.mp h with h1 | h1
      · cases h1
        refine ⟨le_refl n, ?_, hcond.1, hcond.2⟩
        simp
      · obtain ⟨hle, hget, hside, halive⟩ := ih (n + 1) i u h1
        refine ⟨le_trans (Nat.le_succ n) hle, ?_, hside, halive⟩
        have hsub : i - n = (i - (n + 1)) + 1 := by omega
        rw [hsub]
        simpa using hget
    · rw [if_neg hcond] at h
      obtain ⟨hle, hget, hside, halive⟩ := ih (n + 1) i u h
      refine ⟨le_trans (Nat.le_succ n) hle, ?_, hside, halive⟩
      have hsub : i - n = (i - (n + 1)) + 1 := by omega
      rw [hsub]
      simpa using hget

theorem aliveIdx_mem {units : List BattleUnit} {b : Bool} {i : ℕ} {u : BattleUnit}
    (h : (i, u) ∈ aliveIdx units b) :
    units.get? i = some u ∧ u.side = b ∧ u.alive = true := by
  obtain ⟨_, hget, hside, halive⟩ := aliveIdxFrom_mem units 0 i u h
  rw [Nat.sub_zero] at hget
  exact ⟨hget, hside, halive⟩

theorem minByHp_mem : ∀ (l : List (ℕ × BattleUnit)) (best : ℕ × BattleUnit),
    minByHp best l = best ∨ minByHp best l ∈ l := by
  intro l
  induction l with
  | nil => intro best; exact Or.inl rfl
  | cons x rest ih =>
    intro best
    unfold minByHp
    rcases ih (if x.2.total_hp < best.2.total_hp then x else best) with h | h
    · rw [h]
      by_cases hc : x.2.total_hp < best.2.total_hp
      · rw [if_pos hc]
        exact Or.inr (List.mem_cons_self _ _)
      · rw [if_neg hc]
        exact Or.inl rfl
    · exact Or.inr (List.mem_cons_of_mem _ h)

theorem pickFrom_mem (u : BattleUnit) (l : List (ℕ × BattleUnit)) (h : l ≠ []) :
    pickFrom u l ∈ l := by
  cases l with
  | nil => exact absurd rfl h
  | cons x rest =>
    show minByHp x rest ∈ x :: rest
    rcases minByHp_mem rest x with h2 | h2
    · rw [h2]; exact List.mem_cons_self _ _
    · exact List.mem_cons_of_mem _ h2

theorem pick_target_mem (u : BattleUnit) (targets : List (ℕ × BattleUnit))
    (h : targets ≠ []) : pick_target u targets ∈ targets := by
  unfold pick_target
  simp only
  by_cases he : (targets.filter fun t =>
      some t.2.troop_type = TYPE_ADVANTAGE u.troop_type).isEmpty = true
  · rw [if_pos he]
    exact pickFrom_mem u targets h
  · rw [if_neg he]
    have hne : (targets.filter fun t =>
        some t.2.troop_type = TYPE_ADVANTAGE u.troop_type) ≠ [] := by
      intro hnil
      rw [hnil] at he
      simp at he
    exact List.mem_of_mem_filter (pickFrom_mem u _ hne)

theorem attackStep_devolve (spread : ℕ → ℚ) (u : BattleUnit)
    (targets : List (ℕ × BattleUnit)) (units : List BattleUnit) (k : ℕ)
    (hs : 0 ≤ spread k) (hne : targets ≠ [])
    (htg : ∀ p ∈ targets, units.get? p.1 = some p.2) :
    List.Forall₂ Devolve units (attackStep spread u targets units k) := by
  unfold attackStep
  have htm := pick_target_mem u targets hne
  exact set_devolve units _ _ _ (htg _ htm)
    (take_damage_devolve _ _ (Or.inl (calc_damage_nonneg _ _ _ hs)))

theorem tickInner_devolve (spread : ℕ → ℚ) (hs : ∀ n, 0 ≤ spread n) :
    ∀ (order : List ℕ) (units : List BattleUnit) (k : ℕ),
    List.Forall₂ Devolve units (tickInner spread order units k).1 := by
  intro order
  induction order with
  | nil => intro units k; exact forall₂_devolve_refl units
  | cons idx rest ih =>
    intro units k
    rw [tickInner]
    cases hg : units.get? idx with
    | none => exact ih units k
    | some u =>
      simp only
      by_cases ha : u.alive
      · rw [if_pos ha]
        cases ht : aliveIdx units (!u.side) with
        | nil => exact forall₂_devolve_refl units
        | cons t0 ts =>
          simp only
          have htg : ∀ p ∈ t0 :: ts, units.get? p.1 = some p.2 := by
            intro p hp
            rw [← ht] at hp
            exact (aliveIdx_mem hp).1
          have hstep := attackStep_devolve spread u (t0 :: ts) units k (hs k)
            (List.cons_ne_nil t0 ts) htg
          by_cases hstop : ((aliveIdx (attackStep spread u (t0 :: ts) units k) true).isEmpty ||
              (aliveIdx (attackStep spread u (t0 :: ts) units k) false).isEmpty) = true
          · rw [if_pos hstop]
            exact hstep
          · rw [if_neg hstop]
            exact forall₂_devolve_trans hstep (ih _ (k + 1))
      · rw [if_neg ha]
        exact ih units k

theorem runTicks_devolve (spread : ℕ → ℚ) (hs : ∀ n, 0 ≤ spread n) (order : List ℕ) :
    ∀ (fuel tick : ℕ) (units : List BattleUnit) (k : ℕ),
    List.Forall₂ Devolve units (runTicks spread order fuel tick units k).1 := by
  intro fuel
  induction fuel with
  | zero => intro tick units k; exact forall₂_devolve_refl units
  | succ f ih =>
    intro tick units k
    rw [runTicks]
    by_cases hstop : ((aliveIdx units true).isEmpty || (aliveIdx units false).isEmpty) = true
    · rw [if_pos hstop]
      exact forall₂_devolve_refl units
    · rw [if_neg hstop]
      exact forall₂_devolve_trans (tickInner_devolve spread hs order units k)
        (ih (tick + 1) _ _)

theorem runTicks_tick_le (spread : ℕ → ℚ) (order : List ℕ) :
    ∀ (fuel tick : ℕ) (units : List BattleUnit) (k : ℕ),
    (runTicks spread order fuel tick units k).2.1 ≤ tick + fuel := by
  intro fuel
  induction fuel with
  | zero => intro tick units k; exact le_refl tick
  | succ f ih =>
    intro tick units k
    rw [runTicks]
    by_cases hstop : ((aliveIdx units true).isEmpty || (aliveIdx units false).isEmpty) = true
    · rw [if_pos hstop]
      show tick + 1 ≤ tick + (f + 1)
      omega
    · rw [if_neg hstop]
      have := ih (tick + 1) (tickInner spread order units k).1 (tickInner spread order units k).2
      omega

/-! ### Combat: built units and resolve-level bookkeeping -/

theorem BuiltOK_unitInv {u : BattleUnit} (h : BuiltOK u) : UnitInv u := by
  refine ⟨le_of_lt h.1, ?_⟩
  intro _
  rw [h.2.1, mul_comm]

theorem build_player_units_spec (e : CombatEngine) (army : List (String × ℤ)) :
    ∀ u ∈ build_player_units e army, u.side = true ∧ BuiltOK u := by
  intro u hu
  unfold build_player_units at hu
  obtain ⟨tc, _, heq⟩ := List.mem_filterMap.mp hu
  by_cases h1 : tc.2 ≤ 0
  · rw [if_pos h1] at heq
    simp at heq
  · rw [if_neg h1] at heq
    cases hd : alget e.troop_defs tc.1 with
    | none => rw [hd] at heq; simp at heq
    | some tdef =>
      rw [hd] at heq
      simp only [Option.some.injEq] at heq
      subst heq
      push_neg at h1
      exact ⟨rfl, h1, rfl, rfl⟩

theorem build_enemy_units_spec (e : CombatEngine) (army : List (String × ℤ)) :
    ∀ u ∈ build_enemy_units e army, u.side = false ∧ BuiltOK u := by
  intro u hu
  unfold build_enemy_units at hu
  obtain ⟨tc, _, heq⟩ := List.mem_filterMap.mp hu
  by_cases h1 : tc.2 ≤ 0
  · rw [if_pos h1] at heq
    simp at heq
  · rw [if_neg h1] at heq
    cases hd : alget e.troop_defs tc.1 with
    | none => rw [hd] at heq; simp at heq
    | some tdef =>
      rw [hd] at heq
      simp only [Option.some.injEq] at heq
      subst heq
      push_neg at h1
      exact ⟨rfl, h1, rfl, rfl⟩

theorem map_filterMap_sublist {α β γ : Type} (f : α → Option β) (g : α → γ) (h : β → γ)
    (hfg : ∀ a b, f a = some b → h b = g a) :
    ∀ l : List α, ((l.filterMap f).map h).Sublist (l.map g) := by
  intro l
  induction l with
  | nil => simp
  | cons a rest ih =>
    cases hf : f a with
    | none =>
      rw [List.filterMap_cons_none hf, List.map_cons]
      exact ih.cons (g a)
    | some b =>
      rw [List.filterMap_cons_some hf]
      simp only [List.map_cons]
      rw [hfg a b hf]
      exact ih.cons₂ (g a)

theorem build_player_ids_sublist (e : CombatEngine) (army : List (String × ℤ)) :
    ((build_player_units e army).map BattleUnit.troop_id).Sublist (army.map Prod.fst) := by
  apply map_filterMap_sublist
  intro tc u heq
  by_cases h1 : tc.2 ≤ 0
  · rw [if_pos h1] at heq
    simp at heq
  · rw [if_neg h1] at heq
    cases hd : alget e.troop_defs tc.1 with
    | none => rw [hd] at heq; simp at heq
    | some tdef =>
      rw [hd] at heq
      simp only [Option.some.injEq] at heq
      subst heq
      rfl

theorem build_enemy_ids_sublist (e : CombatEngine) (army : List (String × ℤ)) :
    ((build_enemy_units e army).map BattleUnit.troop_id).Sublist (army.map Prod.fst) := by
  apply map_filterMap_sublist
  intro tc u heq
  by_cases h1 : tc.2 ≤ 0
  · rw [if_pos h1] at heq
    simp at heq
  · rw [if_neg h1] at heq
    cases hd : alget e.troop_defs tc.1 with
    | none => rw [hd] at heq; simp at heq
    | some tdef =>
      rw [hd] at heq
      simp only [Option.some.injEq] at heq
      subst heq
      rfl

theorem trap_map_devolve (rate : ℚ) (hr : 0 < rate) :
    ∀ (units : List BattleUnit), (∀ u ∈ units, BuiltOK u) →
    List.Forall₂ Devolve units
      (units.map fun u => (u.take_damage (u.max_hp * rate)).1) := by
  intro units
  induction units with
  | nil => intro _; simp
  | cons v rest ih =>
    intro h
    simp only [List.map_cons]
    refine List.Forall₂.cons ?_ (ih fun u hu => h u (List.mem_cons_of_mem _ hu))
    have hok := h v (List.mem_cons_self _ _)
    apply take_damage_devolve
    by_cases hu : 0 < v.hp_per_unit
    · left
      rw [hok.2.2, hok.2.1]
      have h0 : (0 : ℚ) ≤ v.hp_per_unit * (v.count : ℚ) :=
        mul_nonneg (le_of_lt hu) (by exact_mod_cast le_of_lt hok.1)
      exact mul_nonneg h0 (le_of_lt hr)
    · right
      exact not_lt.mp hu

theorem applyTrap_devolve (rate : ℚ) (units : List BattleUnit)
    (h : ∀ u ∈ units, BuiltOK u) :
    List.Forall₂ Devolve units (applyTrap rate units) := by
  unfold applyTrap
  by_cases hr : 0 < rate
  · rw [if_pos hr]
    exact trap_map_devolve rate hr units h
  · rw [if_neg hr]
    exact forall₂_devolve_refl units

theorem forall₂_devolve_ids :
    ∀ {l l2 : List BattleUnit}, List.Forall₂ Devolve l l2 →
    l2.map BattleUnit.troop_id = l.map BattleUnit.troop_id := by
  intro l l2 h
  induction h with
  | nil => rfl
  | cons ha _ ih =>
    simp only [List.map_cons, ih, List.cons.injEq, and_true]
    exact ha.1

theorem forall₂_devolve_sides {b : Bool} :
    ∀ {l l2 : List BattleUnit}, List.Forall₂ Devolve l l2 →
    (∀ u ∈ l, u.side = b) → ∀ u ∈ l2, u.side = b := by
  intro l l2 h
  induction h with
  | nil => intro _ u hu; simp at hu
  | cons ha _ ih =>
    intro hl u hu
    rcases List.mem_cons.mp hu with h2 | h2
    · subst h2
      rw [ha.2.1]
      exact hl _ (List.mem_cons_self _ _)
    · exact ih (fun w hw => hl w (List.mem_cons_of_mem _ hw)) u h2

theorem forall₂_devolve_filter (q : BattleUnit → Bool)
    (hq : ∀ a b, Devolve a b → q b = q a) :
    ∀ {l l2 : List BattleUnit}, List.Forall₂ Devolve l l2 →
    List.Forall₂ Devolve (l.filter q) (l2.filter q) := by
  intro l l2 h
  induction h with
  | nil => simp
  | @cons a b l1 l3 ha htail ih =>
    rw [List.filter_cons, List.filter_cons, hq a b ha]
    by_cases hc : q a = true
    · rw [if_pos hc, if_pos hc]
      exact List.Forall₂.cons ha ih
    · rw [if_neg hc, if_neg hc]
      exact ih

theorem filter_side_append (p e2 : List BattleUnit)
    (hp : ∀ u ∈ p, u.side = true) (he : ∀ u ∈ e2, u.side = false) :
    (p ++ e2).filter (fun u => u.side) = p ∧
    (p ++ e2).filter (fun u => !u.side) = e2 := by
  constructor
  · rw [List.filter_append]
    rw [List.filter_eq_self.mpr fun a ha => hp a ha]
    rw [List.filter_eq_nil.mpr fun a ha => by simp [he a ha]]
    simp
  · rw [List.filter_append]
    rw [List.filter_eq_nil.mpr fun a ha => by simp [hp a ha]]
    rw [List.filter_eq_self.mpr fun a ha => by simp [he a ha]]
    simp

theorem final_counts_le :
    ∀ {l l2 : List BattleUnit}, List.Forall₂ Devolve l l2 →
    (∀ u ∈ l, BuiltOK u) → (l.map BattleUnit.troop_id).Nodup →
    ∀ u2 ∈ l2,
      ∃ c0, alget (l.map fun u => (u.troop_id, u.count)) u2.troop_id = some c0 ∧
        u2.count ≤ c0 := by
  intro l l2 h
  induction h with
  | nil => intro _ _ u2 h2; simp at h2
  | @cons a b l' l2' ha htail ih =>
    intro hok hnd u2 hu2
    simp only [List.map_cons, List.nodup_cons] at hnd
    rcases List.mem_cons.mp hu2 with h2 | h2
    · subst h2
      refine ⟨a.count, ?_, ?_⟩
      · simp only [List.map_cons]
        rw [alget_cons, ha.1, if_pos rfl]
      · exact (ha.2.2.2 (BuiltOK_unitInv (hok a (List.mem_cons_self _ _)))).2
    · have hids := forall₂_devolve_ids htail
      have hmem2 : u2.troop_id ∈ l'.map BattleUnit.troop_id := by
        rw [← hids]
        exact List.mem_map_of_mem _ h2
      have hne : a.troop_id ≠ u2.troop_id := fun hh => hnd.1 (hh ▸ hmem2)
      simp only [List.map_cons]
      rw [alget_cons, if_neg hne]
      exact ih (fun u hu => hok u (List.mem_cons_of_mem _ hu)) hnd.2 u2 h2

theorem alget_filterMap_first (f : BattleUnit → Option (String × ℤ))
    (hf : ∀ v p, f v = some p → p.1 = v.troop_id) :
    ∀ (l : List BattleUnit), (l.map BattleUnit.troop_id).Nodup →
    ∀ u ∈ l, alget (l.filterMap f) u.troop_id = (f u).map Prod.snd := by
  intro l
  induction l with
  | nil => intro _ u hu; simp at hu
  | cons v rest ih =>
    intro hnd u hu
    simp only [List.map_cons, List.nodup_cons] at hnd
    have hkeys : ∀ q ∈ rest.filterMap f, q.1 ∈ rest.map BattleUnit.troop_id := by
      intro q hq
      obtain ⟨w, hw, hfw⟩ := List.mem_filterMap.mp hq
      rw [hf w q hfw]
      exact List.mem_map_of_mem _ hw
    rcases List.mem_cons.mp hu with h2 | h2
    · subst h2
      cases hfv : f u with
      | none =>
        rw [List.filterMap_cons_none hfv]
        have hnm : u.troop_id ∉ (rest.filterMap f).map Prod.fst := by
          intro hmem
          obtain ⟨q, hq, hq1⟩ := List.mem_map.mp hmem
          exact hnd.1 (hq1 ▸ hkeys q hq)
        rw [alget_eq_none_of_not_mem _ _ hnm]
        rfl
      | some p =>
        rw [List.filterMap_cons_some hfv]
        rw [alget_cons, hf u p hfv, if_pos rfl]
        rfl
    · have hne : v.troop_id ≠ u.troop_id := by
        intro hh
        exact hnd.1 (hh ▸ List.mem_map_of_mem _ h2)
      cases hfv : f v with
      | none =>
        rw [List.filterMap_cons_none hfv]
        exact ih hnd.2 u h2
      | some p =>
        rw [List.filterMap_cons_some hfv]
        rw [alget_cons, hf v p hfv, if_neg hne]
        exact ih hnd.2 u h2

theorem lossMap_pos (initial : List (String × ℤ)) (l : List BattleUnit) :
    ∀ p ∈ lossMap initial l, 0 < p.2 := by
  intro p hp
  unfold lossMap at hp
  obtain ⟨v, _, hfv⟩ := List.mem_filterMap.mp hp
  split at hfv
  · split at hfv
    · rename_i hpos
      cases hfv
      exact hpos
    · simp at hfv
  · simp at hfv

/-- C3: for every pair of army compositions (and any engine configuration and
random stream), `resolve` terminates with a tick counter of at most
`MAX_TICKS = 100`, and the returned victory flag is true exactly when the
player side has at least one alive unit and the enemy side has none at
termination — a mutual wipe, or hitting the cap with enemies alive, is not a
victory. -/
theorem combat_termination (e : CombatEngine) (spread : ℕ → ℚ)
    (p_army e_army : List (String × ℤ)) :
    (e.resolve spread p_army e_army).ticks ≤ MAX_TICKS ∧
    ((e.resolve spread p_army e_army).victory = true ↔
      0 < ((e.resolve spread p_army e_army).player_units.filter BattleUnit.alive).length ∧
      ((e.resolve spread p_army e_army).enemy_units.filter BattleUnit.alive).length = 0) := by
  unfold CombatEngine.resolve
  simp only
  constructor
  · simpa using runTicks_tick_le spread
      (sortOrder (build_player_units e p_army ++
        applyTrap e.research.trap_damage (build_enemy_units e e_army)))
      MAX_TICKS 0
      (build_player_units e p_army ++
        applyTrap e.research.trap_damage (build_enemy_units e e_army)) 0
  · simp [Bool.and_eq_true, decide_eq_true_iff]

/-- C7: in every resolved battle, for every troop group on either side the
reported loss-map entry is exactly the group's initial count minus its final
count (absent when that difference is not positive), the final count never
exceeds the initial one — losses are never negative — and every reported
loss is strictly positive. -/
theorem loss_accounting (e : CombatEngine) (spread : ℕ → ℚ)
    (p_army e_army : List (String × ℤ))
    (hs : ∀ n, 9 / 10 ≤ spread n ∧ spread n ≤ 11 / 10)
    (hpn : (p_army.map Prod.fst).Nodup) (hen : (e_army.map Prod.fst).Nodup) :
    (∀ u ∈ (e.resolve spread p_army e_army).player_units,
      ∃ c0, alget ((build_player_units e p_army).map fun v => (v.troop_id, v.count))
          u.troop_id = some c0 ∧ u.count ≤ c0 ∧
        alget (e.resolve spread p_army e_army).player_losses u.troop_id =
          (if 0 < c0 - u.count then some (c0 - u.count) else none)) ∧
    (∀ p ∈ (e.resolve spread p_army e_army).player_losses, 0 < p.2) ∧
    (∀ u ∈ (e.resolve spread p_army e_army).enemy_units,
      ∃ c0, alget ((build_enemy_units e e_army).map fun v => (v.troop_id, v.count))
          u.troop_id = some c0 ∧ u.count ≤ c0 ∧
        alget (e.resolve spread p_army e_army).enemy_losses u.troop_id =
          (if 0 < c0 - u.count then some (c0 - u.count) else none)) ∧
    (∀ p ∈ (e.resolve spread p_army e_army).enemy_losses, 0 < p.2) := by
  have hs0 : ∀ n, 0 ≤ spread n := fun n => le_trans (by norm_num) (hs n).1
  have hpside : ∀ u ∈ build_player_units e p_army, u.side = true :=
    fun u hu => (build_player_units_spec e p_army u hu).1
  have hpok : ∀ u ∈ build_player_units e p_army, BuiltOK u :=
    fun u hu => (build_player_units_spec e p_army u hu).2
  have heside : ∀ u ∈ build_enemy_units e e_army, u.side = false :=
    fun u hu => (build_enemy_units_spec e e_army u hu).1
  have heok : ∀ u ∈ build_enemy_units e e_army, BuiltOK u :=
    fun u hu => (build_enemy_units_spec e e_army u hu).2
  have htrap : List.Forall₂ Devolve (build_enemy_units e e_army)
      (applyTrap e.research.trap_damage (build_enemy_units e e_army)) :=
    applyTrap_devolve _ _ heok
  have he2side : ∀ u ∈ applyTrap e.research.trap_damage (build_enemy_units e e_army),
      u.side = false := forall₂_devolve_sides htrap heside
  have hrun : List.Forall₂ Devolve
      (build_player_units e p_army ++
        applyTrap e.research.trap_damage (build_enemy_units e e_army))
      ((runTicks spread
        (sortOrder (build_player_units e p_army ++
          applyTrap e.research.trap_damage (build_enemy_units e e_army)))
        MAX_TICKS 0
        (build_player_units e p_army ++
          applyTrap e.research.trap_damage (build_enemy_units e e_army)) 0).1) :=
    runTicks_devolve spread hs0 _ _ _ _ _
  have hfilters := filter_side_append (build_player_units e p_army)
    (applyTrap e.research.trap_damage (build_enemy_units e e_army)) hpside he2side
  have hpfinal : List.Forall₂ Devolve (build_player_units e p_army)
      (((runTicks spread
        (sortOrder (build_player_units e p_army ++
          applyTrap e.research.trap_damage (build_enemy_units e e_army)))
        MAX_TICKS 0
        (build_player_units e p_army ++
          applyTrap e.research.trap_damage (build_enemy_units e e_army)) 0).1).filter
        fun u => u.side) := by
    have h2 := forall₂_devolve_filter (fun u => u.side) (fun a b hab => hab.2.1) hrun
    rwa [hfilters.1] at h2
  have hefinal : List.Forall₂ Devolve (build_enemy_units e e_army)
      (((runTicks spread
        (sortOrder (build_player_units e p_army ++
          applyTrap e.research.trap_damage (build_enemy_units e e_army)))
        MAX_TICKS 0
        (build_player_units e p_army ++
          applyTrap e.research.trap_damage (build_enemy_units e e_army)) 0).1).filter
        fun u => !u.side) := by
    have h2 := forall₂_devolve_filter (fun u => !u.side)
      (fun a b hab => congrArg (fun x => !x) hab.2.1) hrun
    rw [hfilters.2] at h2
    exact forall₂_devolve_trans htrap h2
  have hpnd : ((build_player_units e p_army).map BattleUnit.troop_id).Nodup :=
    List.Nodup.sublist (build_player_ids_sublist e p_army) hpn
  have hend : ((build_enemy_units e e_army).map BattleUnit.troop_id).Nodup :=
    List.Nodup.sublist (build_enemy_ids_sublist e e_army) hen
  have hpfnd := forall₂_devolve_ids hpfinal
  have hefnd := forall₂_devolve_ids hefinal
  have hfkey : ∀ (initial : List (String × ℤ)) (v : BattleUnit) (p : String × ℤ),
      (match alget initial v.troop_id with
       | some c0 => if 0 < c0 - v.count then some (v.troop_id, c0 - v.count) else none
       | none => none) = some p → p.1 = v.troop_id := by
    intro initial v p hp
    split at hp
    · split at hp
      · cases hp
        rfl
      · simp at hp
    · simp at hp
  unfold CombatEngine.resolve
  simp only
  refine ⟨?_, lossMap_pos _ _, ?_, lossMap_pos _ _⟩
  · intro u hu
    obtain ⟨c0, hc0, hle⟩ := final_counts_le hpfinal hpok hpnd u hu
    refine ⟨c0, hc0, hle, ?_⟩
    have hlook := alget_filterMap_first _ (hfkey
        ((build_player_units e p_army).map fun v => (v.troop_id, v.count))) _
      (by rw [hpfnd]; exact hpnd) u hu
    rw [lossMap, hlook, hc0]
    show Option.map Prod.snd
        (if 0 < c0 - u.count then some (u.troop_id, c0 - u.count) else none) =
      (if 0 < c0 - u.count then some (c0 - u.count) else none)
    by_cases hpos : 0 < c0 - u.count
    · rw [if_pos hpos, if_pos hpos]
      rfl
    · rw [if_neg hpos, if_neg hpos]
      rfl
  · intro u hu
    obtain ⟨c0, hc0, hle⟩ := final_counts_le hefinal heok hend u hu
    refine ⟨c0, hc0, hle, ?_⟩
    have hlook := alget_filterMap_first _ (hfkey
        ((build_enemy_units e e_army).map fun v => (v.troop_id, v.count))) _
      (by rw [hefnd]; exact hend) u hu
    rw [lossMap, hlook, hc0]
    show Option.map Prod.snd
        (if 0 < c0 - u.count then some (u.troop_id, c0 - u.count) else none) =
      (if 0 < c0 - u.count then some (c0 - u.count) else none)
    by_cases hpos : 0 < c0 - u.count
    · rw [if_pos hpos, if_pos hpos]
      rfl
    · rw [if_neg hpos, if_neg hpos]
      rfl

/-- Witness for C7: warriors against scouts with the neutral spread. -/
theorem loss_accounting_witness :
    (∀ u ∈ (sampleEngine.resolve (fun _ => 1) [("warrior_bunny", 10)]
        [("scout_bunny", 5)]).player_units,
      ∃ c0, alget ((build_player_units sampleEngine [("warrior_bunny", 10)]).map
          fun v => (v.troop_id, v.count)) u.troop_id = some c0 ∧ u.count ≤ c0 ∧
        alget (sampleEngine.resolve (fun _ => 1) [("warrior_bunny", 10)]
            [("scout_bunny", 5)]).player_losses u.troop_id =
          (if 0 < c0 - u.count then some (c0 - u.count) else none)) ∧
    (∀ p ∈ (sampleEngine.resolve (fun _ => 1) [("warrior_bunny", 10)]
        [("scout_bunny", 5)]).player_losses, 0 < p.2) ∧
    (∀ u ∈ (sampleEngine.resolve (fun _ => 1) [("warrior_bunny", 10)]
        [("scout_bunny", 5)]).enemy_units,
      ∃ c0, alget ((build_enemy_units sampleEngine [("scout_bunny", 5)]).map
          fun v => (v.troop_id, v.count)) u.troop_id = some c0 ∧ u.count ≤ c0 ∧
        alget (sampleEngine.resolve (fun _ => 1) [("warrior_bunny", 10)]
            [("scout_bunny", 5)]).enemy_losses u.troop_id =
          (if 0 < c0 - u.count then some (c0 - u.count) else none)) ∧
    (∀ p ∈ (sampleEngine.resolve (fun _ => 1) [("warrior_bunny", 10)]
        [("scout_bunny", 5)]).enemy_losses, 0 < p.2) :=
  loss_accounting sampleEngine (fun _ => 1) [("warrior_bunny", 10)] [("scout_bunny", 5)]
    (fun _ => ⟨by norm_num, by norm_num⟩) (by simp) (by simp)

/-- The code's multiplier table in the claim's vocabulary. -/
theorem TYPE_ADVANTAGE_eq_some (t t2 : String) :
    TYPE_ADVANTAGE t = some t2 ↔
      (t, t2) ∈ strongPairs ∨ (t = "siege" ∧ t2 = "siege") := by
  unfold TYPE_ADVANTAGE strongPairs
  split_ifs with h1 h2 h3 h4 <;> simp_all [Prod.ext_iff, eq_comm]

/-- C1 (amended): every attack's damage is
`max(1, atk * count - defense * 0.5)`, multiplied by 1.30 when the defender's
type is the attacker's strong-vs target — where the strong-vs table is
infantry→cavalry, cavalry→ranged, ranged→infantry AND siege→siege, so a
siege attacker hitting a siege defender also gets the ×1.30 bonus — by 0.75
when the defender has the type advantage over the attacker, 1.0 otherwise,
and finally by the random spread drawn from [0.9, 1.1]. -/
theorem calc_damage_formula (a d : BattleUnit) (s : ℚ)
    (hs : 9 / 10 ≤ s ∧ s ≤ 11 / 10) :
    calc_damage a d s =
      max 1 (a.atk * (a.count : ℚ) - d.defense * (1 / 2)) *
        amendedMult a.troop_type d.troop_type * s := by
  simp only [calc_damage, amendedMult]
  by_cases h1 : TYPE_ADVANTAGE a.troop_type = some d.troop_type
  · rw [if_pos h1, if_pos ((TYPE_ADVANTAGE_eq_some _ _).mp h1)]
  · rw [if_neg h1]
    have h1b : ¬((a.troop_type, d.troop_type) ∈ strongPairs ∨
        (a.troop_type = "siege" ∧ d.troop_type = "siege")) :=
      fun hc => h1 ((TYPE_ADVANTAGE_eq_some _ _).mpr hc)
    rw [if_neg h1b]
    by_cases h2 : TYPE_ADVANTAGE d.troop_type = some a.troop_type
    · rw [if_pos h2]
      rcases (TYPE_ADVANTAGE_eq_some _ _).mp h2 with hm | ⟨hd2, ha2⟩
      · rw [if_pos hm]
      · exfalso
        apply h1
        rw [ha2, hd2]
        decide
    · rw [if_neg h2]
      have h2b : (d.troop_type, a.troop_type) ∉ strongPairs :=
        fun hm => h2 ((TYPE_ADVANTAGE_eq_some _ _).mpr (Or.inl hm))
      rw [if_neg h2b, mul_one]

/-- Auxiliary evaluation: the damage a 10-strong siege attacker (atk 10)
deals to an undefended siege target with the neutral spread is 130, i.e.
the ×1.30 branch fires on siege vs siege. -/
theorem siege_vs_siege_damage : calc_damage siegeAttacker siegeDefender 1 = 130 := by
  have hmax : max (1 : ℚ) (10 * (10 : ℤ) - 0 * (1 / 2)) = 100 := by
    rw [max_eq_right (by norm_num)]
    norm_num
  simp only [calc_damage, siegeAttacker, siegeDefender]
  rw [if_pos (by decide : TYPE_ADVANTAGE "siege" = some "siege")]
  push_cast at hmax ⊢
  rw [hmax]
  norm_num

/-- C1 counterexample: on a siege-vs-siege attack the code multiplies by
1.30, so the observed damage (130 at neutral spread, net 100) cannot be
written as `net × 1.0 × spread` for any spread in [0.9, 1.1]: the claim's
"neutral ×1.0 for siege vs siege" is false on the code. -/
theorem calc_damage_counterexample :
    calc_damage siegeAttacker siegeDefender 1 = 130 ∧
    ((9 : ℚ) / 10 ≤ 1 ∧ (1 : ℚ) ≤ 11 / 10) ∧
    ¬∃ s : ℚ, 9 / 10 ≤ s ∧ s ≤ 11 / 10 ∧
      calc_damage siegeAttacker siegeDefender 1 =
        max 1 (siegeAttacker.atk * (siegeAttacker.count : ℚ) -
          siegeDefender.defense * (1 / 2)) * 1 * s := by
  refine ⟨siege_vs_siege_damage, ⟨by norm_num, by norm_num⟩, ?_⟩
  rintro ⟨s, hs1, hs2, heq⟩
  rw [siege_vs_siege_damage] at heq
  have hmax : max 1 (siegeAttacker.atk * (siegeAttacker.count : ℚ) -
      siegeDefender.defense * (1 / 2)) = 100 := by
    simp only [siegeAttacker, siegeDefender]
    rw [max_eq_right (by push_cast; norm_num)]
    push_cast
    norm_num
  rw [hmax] at heq
  have : s = 13 / 10 := by linarith
  rw [this] at hs2
  norm_num at hs2

/-- Witness for the amended C1 at the concrete siege units and spread 1. -/
theorem calc_damage_formula_witness :
    calc_damage siegeAttacker siegeDefender 1 =
      max 1 (siegeAttacker.atk * (siegeAttacker.count : ℚ) -
        siegeDefender.defense * (1 / 2)) *
        amendedMult siegeAttacker.troop_type siegeDefender.troop_type * 1 :=
  calc_damage_formula siegeAttacker siegeDefender 1 ⟨by norm_num, by norm_num⟩

/-- C4: under the documented preconditions (`hp_per_unit > 0`,
`0 ≤ total_hp ≤ count * hp_per_unit`, nonnegative damage), `take_damage`
floors the hp pool at 0, reports `previous count - ceil(remaining hp /
hp_per_unit)` kills, zeroes the count exactly when the pool empties, keeps
the killed number between 0 and the previous count, and never touches
`hp_per_unit`. -/
theorem take_damage_spec (u : BattleUnit) (damage : ℚ)
    (hu : 0 < u.hp_per_unit) (h0 : 0 ≤ u.total_hp)
    (hb : u.total_hp ≤ (u.count : ℚ) * u.hp_per_unit) (hd : 0 ≤ damage) :
    (u.take_damage damage).1.total_hp = max 0 (u.total_hp - damage) ∧
    (u.take_damage damage).2 =
      u.count - ⌈(u.take_damage damage).1.total_hp / u.hp_per_unit⌉ ∧
    ((u.take_damage damage).1.count = 0 ↔ (u.take_damage damage).1.total_hp = 0) ∧
    0 ≤ (u.take_damage damage).2 ∧ (u.take_damage damage).2 ≤ u.count ∧
    (u.take_damage damage).1.hp_per_unit = u.hp_per_unit := by
  have hcq : (0 : ℚ) ≤ (u.count : ℚ) := by
    by_contra hneg
    push_neg at hneg
    have : (u.count : ℚ) * u.hp_per_unit < 0 := mul_neg_of_neg_of_pos hneg hu
    linarith
  have hc : (0 : ℤ) ≤ u.count := by exact_mod_cast hcq
  have hinv : UnitInv u := ⟨hc, fun _ => hb⟩
  obtain ⟨hinv2, hcle⟩ := take_damage_count_inv u damage hinv (Or.inl hd)
  have hhp : (u.take_damage damage).1.total_hp = max 0 (u.total_hp - damage) := rfl
  have hp2nn : (0 : ℚ) ≤ max 0 (u.total_hp - damage) := le_max_left 0 _
  have hcount : (u.take_damage damage).1.count =
      ⌈max 0 (u.total_hp - damage) / u.hp_per_unit⌉ := by
    show (if 0 < max 0 (u.total_hp - damage) then
        max 0 ⌈max 0 (u.total_hp - damage) / u.hp_per_unit⌉ else 0) = _
    by_cases hpos : 0 < max 0 (u.total_hp - damage)
    · rw [if_pos hpos]
      have hceil_pos : 0 < ⌈max 0 (u.total_hp - damage) / u.hp_per_unit⌉ := by
        rw [Int.ceil_pos]
        exact div_pos hpos hu
      exact max_eq_right (le_of_lt hceil_pos)
    · rw [if_neg hpos]
      have hz : max 0 (u.total_hp - damage) = 0 := le_antisymm (not_lt.mp hpos) hp2nn
      rw [hz, zero_div, Int.ceil_zero]
  have hkilled : (u.take_damage damage).2 = u.count - (u.take_damage damage).1.count := rfl
  refine ⟨hhp, ?_, ?_, ?_, ?_, rfl⟩
  · rw [hkilled, hcount, hhp]
  · constructor
    · intro hzero
      by_contra hne
      have hpos : 0 < (u.take_damage damage).1.total_hp :=
        lt_of_le_of_ne (by rw [hhp]; exact hp2nn) (Ne.symm hne)
      have : 0 < (u.take_damage damage).1.count := by
        rw [hcount, Int.ceil_pos]
        rw [hhp] at hpos
        exact div_pos hpos hu
      omega
    · intro hzero
      rw [hcount]
      rw [hhp] at hzero
      rw [hzero, zero_div, Int.ceil_zero]
  · rw [hkilled]
    omega
  · rw [hkilled]
    have h2 : 0 ≤ (u.take_damage damage).1.count := hinv2.1
    omega

/-- Witness for C4: 15 damage on a group of 3 units with 10 hp each and a
pool of 30. -/
theorem take_damage_spec_witness :
    (sampleUnit.take_damage 15).1.total_hp = max 0 (sampleUnit.total_hp - 15) ∧
    (sampleUnit.take_damage 15).2 =
      sampleUnit.count - ⌈(sampleUnit.take_damage 15).1.total_hp / sampleUnit.hp_per_unit⌉ ∧
    ((sampleUnit.take_damage 15).1.count = 0 ↔ (sampleUnit.take_damage 15).1.total_hp = 0) ∧
    0 ≤ (sampleUnit.take_damage 15).2 ∧ (sampleUnit.take_damage 15).2 ≤ sampleUnit.count ∧
    (sampleUnit.take_damage 15).1.hp_per_unit = sampleUnit.hp_per_unit :=
  take_damage_spec sampleUnit 15 (by norm_num [sampleUnit])
    (by norm_num [sampleUnit]) (by norm_num [sampleUnit]) (by norm_num)

/-- C6 counterexample: `bonus_stage` is not the first stage and no stage in
the completed set unlocks it, yet `is_unlocked` returns true because its
`requires` field is absent — the claim's "true iff some completed stage's
unlock_next equals it" fails. -/
theorem is_unlocked_counterexample :
    sampleCampaign.is_unlocked "bonus_stage" = true ∧
    "bonus_stage" ≠ "stage_1" ∧
    (∀ p ∈ sampleCampaign.stages,
      ¬(p.2.unlock_next = some "bonus_stage" ∧ p.1 ∈ sampleCampaign.completed)) := by
  decide

/-- C6 (amended): for a stage present in the catalog, `is_unlocked` returns
true iff the stage's `requires` field is missing or empty (which covers the
designated first stage), or some stage whose `unlock_next` equals it is in
the completed set, or the id is the hard-coded `"stage_1"`.  The claim's
stage_1/stage_2 scenario holds: stage_2 is locked until
`complete_stage("stage_1")` and unlocked afterwards. -/
theorem is_unlocked_amended (c : CampaignData) (stage_id : String)
    (st : CampaignStage) (hst : alget c.stages stage_id = some st) :
    (c.is_unlocked stage_id =
      (falsyStr st.requires ||
        (c.stages.any fun sp =>
          sp.2.unlock_next == some stage_id && c.completed.contains sp.1) ||
        decide (stage_id = "stage_1"))) ∧
    sampleCampaign.is_unlocked "stage_2" = false ∧
    (sampleCampaign.complete_stage "stage_1").is_unlocked "stage_2" = true := by
  refine ⟨?_, by decide, by decide⟩
  unfold CampaignData.is_unlocked
  rw [hst]
  show (if falsyStr st.requires = true then true
    else if (c.stages.any fun sp =>
        sp.2.unlock_next == some stage_id && c.completed.contains sp.1) = true then true
    else if stage_id = "stage_1" then true else false) = _
  by_cases h1 : falsyStr st.requires = true
  · rw [if_pos h1, h1]
    rw [Bool.true_or, Bool.true_or]
  · rw [if_neg h1]
    rw [Bool.not_eq_true] at h1
    rw [h1, Bool.false_or]
    by_cases h2 : (c.stages.any fun sp =>
        sp.2.unlock_next == some stage_id && c.completed.contains sp.1) = true
    · rw [if_pos h2, h2, Bool.true_or]
    · rw [if_neg h2]
      rw [Bool.not_eq_true] at h2
      rw [h2, Bool.false_or]
      by_cases h3 : stage_id = "stage_1"
      · rw [if_pos h3, decide_eq_true h3]
      · rw [if_neg h3, decide_eq_false h3]

/-- Witness for the amended C6 at the sample campaign's stage_2. -/
theorem is_unlocked_amended_witness :
    (sampleCampaign.is_unlocked "stage_2" =
      (falsyStr (some "stage_1") ||
        (sampleCampaign.stages.any fun sp =>
          sp.2.unlock_next == some "stage_2" && sampleCampaign.completed.contains sp.1) ||
        decide ("stage_2" = "stage_1"))) ∧
    sampleCampaign.is_unlocked "stage_2" = false ∧
    (sampleCampaign.complete_stage "stage_1").is_unlocked "stage_2" = true :=
  is_unlocked_amended sampleCampaign "stage_2"
    { requires := some "stage_1", unlock_next := some "stage_3" } (by decide)

/-! ### Training queue lemmas -/


theorem Army.get_count_add (a : Army) (k : String) (n : ℤ) :
    (a.add k n).get_count k = a.get_count k + n := by
  unfold Army.add Army.get_count algetD
  simp [alget_alset_self]

theorem trainLoop_spec : ∀ (fuel : ℕ) (j : TrainingJob) (a : Army),
    (trainLoop fuel j a).1.troop_id = j.troop_id ∧
    (trainLoop fuel j a).1.total_count = j.total_count ∧
    (trainLoop fuel j a).1.time_per_unit = j.time_per_unit ∧
    j.trained_count ≤ (trainLoop fuel j a).1.trained_count ∧
    (trainLoop fuel j a).1.trained_count ≤ max j.trained_count j.total_count ∧
    (trainLoop fuel j a).2.get_count j.troop_id =
      a.get_count j.troop_id +
        (((trainLoop fuel j a).1.trained_count : ℤ) - (j.trained_count : ℤ)) := by
  intro fuel
  induction fuel with
  | zero =>
    intro j a
    rw [trainLoop]
    refine ⟨rfl, rfl, rfl, le_refl _, le_max_left _ _, ?_⟩
    rw [sub_self, add_zero]
  | succ f ih =>
    intro j a
    rw [trainLoop]
    by_cases hg : j.timer ≤ 0 ∧ j.trained_count < j.total_count
    · rw [if_pos hg]
      by_cases hlt : j.trained_count + 1 < j.total_count
      · rw [if_pos hlt]
        obtain ⟨h1, h2, h3, h4, h5, h6⟩ := ih
          { j with trained_count := j.trained_count + 1,
                   timer := j.timer + j.time_per_unit } (a.add j.troop_id 1)
        refine ⟨h1, h2, h3, le_trans (Nat.le_succ _) h4, ?_, ?_⟩
        · have : max (j.trained_count + 1) j.total_count = j.total_count := by omega
          rw [this] at h5
          omega
        · rw [h6]
          simp only
          rw [Army.get_count_add]
          push_cast
          ring
      · rw [if_neg hlt]
        obtain ⟨h1, h2, h3, h4, h5, h6⟩ := ih
          { j with trained_count := j.trained_count + 1, timer := 0 }
          (a.add j.troop_id 1)
        refine ⟨h1, h2, h3, le_trans (Nat.le_succ _) h4, ?_, ?_⟩
        · have : max (j.trained_count + 1) j.total_count = j.trained_count + 1 := by omega
          rw [this] at h5
          omega
        · rw [h6]
          simp only
          rw [Army.get_count_add]
          push_cast
          ring
    · rw [if_neg hg]
      refine ⟨rfl, rfl, rfl, le_refl _, le_max_left _ _, ?_⟩
      rw [sub_self, add_zero]

theorem trainLoop_post : ∀ (fuel : ℕ) (j : TrainingJob) (a : Army),
    j.total_count - j.trained_count ≤ fuel →
    ¬((trainLoop fuel j a).1.timer ≤ 0 ∧
      (trainLoop fuel j a).1.trained_count < (trainLoop fuel j a).1.total_count) := by
  intro fuel
  induction fuel with
  | zero =>
    intro j a hle hcontra
    rw [trainLoop] at hcontra
    have h2 : j.trained_count < j.total_count := hcontra.2
    omega
  | succ f ih =>
    intro j a hle
    rw [trainLoop]
    by_cases hg : j.timer ≤ 0 ∧ j.trained_count < j.total_count
    · rw [if_pos hg]
      by_cases hlt : j.trained_count + 1 < j.total_count
      · rw [if_pos hlt]
        exact ih _ _ (show j.total_count - (j.trained_count + 1) ≤ f by omega)
      · rw [if_neg hlt]
        exact ih _ _ (show j.total_count - (j.trained_count + 1) ≤ f by omega)
    · rw [if_neg hg]
      exact hg

theorem trainLoop_complete : ∀ (fuel : ℕ) (j : TrainingJob) (a : Army),
    0 ≤ j.time_per_unit → j.trained_count ≤ j.total_count →
    j.total_count - j.trained_count ≤ fuel →
    j.timer + ((j.total_count : ℚ) - (j.trained_count : ℚ) - 1) * j.time_per_unit ≤ 0 →
    (trainLoop fuel j a).1.trained_count = j.total_count := by
  intro fuel
  induction fuel with
  | zero =>
    intro j a _ hle hfuel _
    have : j.trained_count = j.total_count := by omega
    rw [trainLoop]
    exact this
  | succ f ih =>
    intro j a htpu hle hfuel hbig
    rw [trainLoop]
    by_cases heq : j.trained_count = j.total_count
    · rw [if_neg (by omega)]
      exact heq
    · have hlt0 : j.trained_count < j.total_count := by omega
      have hrem : (1 : ℚ) ≤ (j.total_count : ℚ) - (j.trained_count : ℚ) := by
        have : j.trained_count + 1 ≤ j.total_count := hlt0
        push_cast
        have hc : (j.trained_count : ℚ) + 1 ≤ (j.total_count : ℚ) := by exact_mod_cast this
        linarith
      have htimer : j.timer ≤ 0 := by
        have hnn : 0 ≤ ((j.total_count : ℚ) - (j.trained_count : ℚ) - 1) * j.time_per_unit :=
          mul_nonneg (by linarith) htpu
        linarith
      rw [if_pos ⟨htimer, hlt0⟩]
      by_cases hlt : j.trained_count + 1 < j.total_count
      · rw [if_pos hlt]
        exact ih
          { j with trained_count := j.trained_count + 1,
                   timer := j.timer + j.time_per_unit }
          (a.add j.troop_id 1) htpu
          (show j.trained_count + 1 ≤ j.total_count by omega)
          (show j.total_count - (j.trained_count + 1) ≤ f by omega)
          (by
            show j.timer + j.time_per_unit +
              ((j.total_count : ℚ) - ((j.trained_count + 1 : ℕ) : ℚ) - 1) *
                j.time_per_unit ≤ 0
            push_cast
            have hrw : j.timer + j.time_per_unit +
                ((j.total_count : ℚ) - ((j.trained_count : ℚ) + 1) - 1) * j.time_per_unit =
                j.timer +
                  ((j.total_count : ℚ) - (j.trained_count : ℚ) - 1) * j.time_per_unit := by
              ring
            rw [hrw]
            exact hbig)
      · rw [if_neg hlt]
        exact ih
          { j with trained_count := j.trained_count + 1, timer := 0 }
          (a.add j.troop_id 1) htpu
          (show j.trained_count + 1 ≤ j.total_count by omega)
          (show j.total_count - (j.trained_count + 1) ≤ f by omega)
          (by
            show (0 : ℚ) +
              ((j.total_count : ℚ) - ((j.trained_count + 1 : ℕ) : ℚ) - 1) *
                j.time_per_unit ≤ 0
            push_cast
            have hneg : ((j.total_count : ℚ) - ((j.trained_count : ℚ) + 1) - 1) ≤ 0 := by
              have h3 : j.total_count ≤ j.trained_count + 1 := by omega
              have hc : (j.total_count : ℚ) ≤ (j.trained_count : ℚ) + 1 := by
                exact_mod_cast h3
              linarith
            have h4 : ((j.total_count : ℚ) - ((j.trained_count : ℚ) + 1) - 1) *
                j.time_per_unit ≤ 0 := mul_nonpos_iff.mpr (Or.inr ⟨hneg, htpu⟩)
            linarith)

theorem training_update_cons (dt : ℚ) (job : TrainingJob) (rest : List TrainingJob)
    (army : Army) :
    training_update dt (job :: rest) army =
      if (trainLoop (job.total_count - job.trained_count)
          { job with timer := job.timer - dt } army).1.is_complete then
        (rest,
         (trainLoop (job.total_count - job.trained_count)
           { job with timer := job.timer - dt } army).2,
         [((trainLoop (job.total_count - job.trained_count)
             { job with timer := job.timer - dt } army).1.troop_id,
           (trainLoop (job.total_count - job.trained_count)
             { job with timer := job.timer - dt } army).1.total_count)])
      else
        ((trainLoop (job.total_count - job.trained_count)
           { job with timer := job.timer - dt } army).1 :: rest,
         (trainLoop (job.total_count - job.trained_count)
           { job with timer := job.timer - dt } army).2,
         []) := rfl

theorem training_run_cons (dt : ℚ) (rest : List ℚ) (queue : List TrainingJob)
    (army : Army) :
    training_run (dt :: rest) queue army =
      ((training_run rest (training_update dt queue army).1
          (training_update dt queue army).2.1).1,
       (training_run rest (training_update dt queue army).1
          (training_update dt queue army).2.1).2.1,
       (training_update dt queue army).2.2 ++
         (training_run rest (training_update dt queue army).1
           (training_update dt queue army).2.1).2.2) := rfl

theorem training_run_empty_queue : ∀ (dts : List ℚ) (army : Army),
    training_run dts [] army = ([], army, []) := by
  intro dts
  induction dts with
  | nil => intro army; rfl
  | cons dt rest ih =>
    intro army
    rw [training_run_cons]
    show ((training_run rest [] army).1, (training_run rest [] army).2.1,
      [] ++ (training_run rest [] army).2.2) = ([], army, [])
    rw [ih army]
    rfl

theorem training_update_head (dt : ℚ) (job : TrainingJob) (rest : List TrainingJob)
    (army : Army) (h : job.trained_count ≤ job.total_count) :
    ∃ j2 : TrainingJob,
      j2.troop_id = job.troop_id ∧ j2.total_count = job.total_count ∧
      job.trained_count ≤ j2.trained_count ∧ j2.trained_count ≤ job.total_count ∧
      (training_update dt (job :: rest) army).2.1.get_count job.troop_id =
        army.get_count job.troop_id +
          ((j2.trained_count : ℤ) - (job.trained_count : ℤ)) ∧
      ((j2.trained_count = job.total_count ∧
          (training_update dt (job :: rest) army).1 = rest ∧
          (training_update dt (job :: rest) army).2.2 =
            [(job.troop_id, job.total_count)]) ∨
        (j2.trained_count < job.total_count ∧
          (training_update dt (job :: rest) army).1 = j2 :: rest ∧
          (training_update dt (job :: rest) army).2.2 = [])) := by
  obtain ⟨hid, htot, htpu2, hmono, hbound, harmy⟩ :=
    trainLoop_spec (job.total_count - job.trained_count)
      { job with timer := job.timer - dt } army
  refine ⟨(trainLoop (job.total_count - job.trained_count)
    { job with timer := job.timer - dt } army).1, hid, htot, hmono, ?_, ?_, ?_⟩
  · have hmax : max job.trained_count job.total_count = job.total_count := by omega
    rw [hmax] at hbound
    exact hbound
  · rw [training_update_cons]
    by_cases hc : (trainLoop (job.total_count - job.trained_count)
        { job with timer := job.timer - dt } army).1.is_complete = true
    · rw [if_pos hc]
      exact harmy
    · rw [if_neg hc]
      exact harmy
  · rw [training_update_cons]
    by_cases hc : (trainLoop (job.total_count - job.trained_count)
        { job with timer := job.timer - dt } army).1.is_complete = true
    · rw [if_pos hc]
      left
      unfold TrainingJob.is_complete at hc
      rw [decide_eq_true_iff] at hc
      rw [htot] at hc
      have hmax : max job.trained_count job.total_count = job.total_count := by omega
      rw [hmax] at hbound
      refine ⟨le_antisymm hbound hc, rfl, ?_⟩
      rw [hid, htot]
    · rw [if_neg hc]
      right
      unfold TrainingJob.is_complete at hc
      rw [decide_eq_true_iff] at hc
      push_neg at hc
      rw [htot] at hc
      exact ⟨hc, rfl, rfl⟩

theorem training_run_single : ∀ (dts : List ℚ) (job : TrainingJob) (army : Army),
    job.trained_count ≤ job.total_count →
    (((training_run dts [job] army).1 = [] ∧
        (training_run dts [job] army).2.1.get_count job.troop_id =
          army.get_count job.troop_id +
            ((job.total_count : ℤ) - (job.trained_count : ℤ)) ∧
        (training_run dts [job] army).2.2 = [(job.troop_id, job.total_count)]) ∨
      (∃ j2, (training_run dts [job] army).1 = [j2] ∧
        j2.troop_id = job.troop_id ∧ j2.total_count = job.total_count ∧
        job.trained_count ≤ j2.trained_count ∧ j2.trained_count ≤ job.total_count ∧
        (training_run dts [job] army).2.1.get_count job.troop_id =
          army.get_count job.troop_id +
            ((j2.trained_count : ℤ) - (job.trained_count : ℤ)) ∧
        (training_run dts [job] army).2.2 = [])) := by
  intro dts
  induction dts with
  | nil =>
    intro job army h
    right
    refine ⟨job, rfl, rfl, rfl, le_refl _, h, ?_, rfl⟩
    rw [sub_self, add_zero]
    rfl
  | cons dt rest ih =>
    intro job army h
    obtain ⟨j2, hid, htot, hmono, hbound, harmy, hcase⟩ :=
      training_update_head dt job [] army h
    rw [training_run_cons]
    rcases hcase with ⟨hdone, hq, hrep⟩ | ⟨hlt, hq, hrep⟩
    · left
      rw [hq, hrep]
      rw [training_run_empty_queue rest (training_update dt [job] army).2.1]
      refine ⟨rfl, ?_, rfl⟩
      show (training_update dt [job] army).2.1.get_count job.troop_id = _
      rw [harmy, hdone]
    · rw [hq, hrep]
      have h2 : j2.trained_count ≤ j2.total_count := by rw [htot]; exact hbound
      rw [← hid] at harmy
      rcases ih j2 (training_update dt [job] army).2.1 h2 with
        ⟨hq3, harmy3, hrep3⟩ | ⟨j3, hq3, hid3, htot3, hmono3, hbound3, harmy3, hrep3⟩
      · left
        refine ⟨hq3, ?_, ?_⟩
        · show (training_run rest [j2]
            (training_update dt [job] army).2.1).2.1.get_count job.troop_id = _
          rw [← hid, harmy3, harmy, htot]
          ring
        · show [] ++ (training_run rest [j2]
            (training_update dt [job] army).2.1).2.2 = _
          rw [List.nil_append, hrep3, hid, htot]
      · right
        refine ⟨j3, hq3, hid3.trans hid, htot3.trans htot, by omega, ?_, ?_, ?_⟩
        · rw [htot] at hbound3
          exact hbound3
        · show (training_run rest [j2]
            (training_update dt [job] army).2.1).2.1.get_count job.troop_id = _
          rw [← hid, harmy3, harmy]
          ring
        · show [] ++ (training_run rest [j2]
            (training_update dt [job] army).2.1).2.2 = _
          rw [List.nil_append, hrep3]

/-- C5: for a fresh training job (trained_count 0): however the elapsed time
is chunked into `update(dt)` calls, once the job has been fully processed
(removed from the queue) the army has gained exactly `total_count` units of
its troop id and `(troop_id, total_count)` was reported exactly once; each
single `update` either pops the job reporting `(troop_id, total_count)`, or
keeps it at the head with `trained_count < total_count` and reports nothing
— so removal happens exactly when the job completes; and one `update(dt)`
whose `dt` covers `timer + (total_count - 1) * time_per_unit` trains every
unit of the job in that single call via the re-arming loop. -/
theorem training_conservation (job : TrainingJob) (army : Army)
    (h0 : job.trained_count = 0) :
    (∀ dts : List ℚ, (training_run dts [job] army).1 = [] →
      (training_run dts [job] army).2.1.get_count job.troop_id =
        army.get_count job.troop_id + (job.total_count : ℤ) ∧
      (training_run dts [job] army).2.2 = [(job.troop_id, job.total_count)]) ∧
    (∀ (dt : ℚ) (rest : List TrainingJob),
      ((training_update dt (job :: rest) army).1 = rest ∧
        (training_update dt (job :: rest) army).2.2 =
          [(job.troop_id, job.total_count)]) ∨
      (∃ j2, j2.trained_count < j2.total_count ∧
        (training_update dt (job :: rest) army).1 = j2 :: rest ∧
        (training_update dt (job :: rest) army).2.2 = [])) ∧
    (∀ dt : ℚ, 0 ≤ job.time_per_unit →
      job.timer + ((job.total_count : ℚ) - 1) * job.time_per_unit ≤ dt →
      (training_update dt [job] army).1 = [] ∧
      (training_update dt [job] army).2.2 = [(job.troop_id, job.total_count)] ∧
      (training_update dt [job] army).2.1.get_count job.troop_id =
        army.get_count job.troop_id + (job.total_count : ℤ)) := by
  have h : job.trained_count ≤ job.total_count := by omega
  refine ⟨?_, ?_, ?_⟩
  · intro dts hdone
    rcases training_run_single dts job army h with
      ⟨_, harmy, hrep⟩ | ⟨j2, hq, _, _, _, _, _, _⟩
    · rw [h0] at harmy
      simp only [Nat.cast_zero, sub_zero] at harmy
      exact ⟨harmy, hrep⟩
    · rw [hdone] at hq
      cases hq
  · intro dt rest
    obtain ⟨j2, hid, htot, _, _, _, hcase⟩ := training_update_head dt job rest army h
    rcases hcase with ⟨_, hq, hrep⟩ | ⟨hlt, hq, hrep⟩
    · exact Or.inl ⟨hq, hrep⟩
    · refine Or.inr ⟨j2, ?_, hq, hrep⟩
      rw [htot]
      exact hlt
  · intro dt htpu hdt
    have hcomp : (trainLoop (job.total_count - job.trained_count)
        { job with timer := job.timer - dt } army).1.trained_count =
        job.total_count := by
      refine trainLoop_complete (job.total_count - job.trained_count)
        { job with timer := job.timer - dt } army htpu h (le_refl _) ?_
      show job.timer - dt +
        ((job.total_count : ℚ) - (job.trained_count : ℚ) - 1) * job.time_per_unit ≤ 0
      rw [h0]
      push_cast
      linarith
    obtain ⟨hid, htot, _, _, hbound, harmy⟩ :=
      trainLoop_spec (job.total_count - job.trained_count)
        { job with timer := job.timer - dt } army
    have hcompl : (trainLoop (job.total_count - job.trained_count)
        { job with timer := job.timer - dt } army).1.is_complete = true := by
      unfold TrainingJob.is_complete
      rw [decide_eq_true_iff, htot, hcomp]
    rw [training_update_cons, if_pos hcompl]
    refine ⟨rfl, ?_, ?_⟩
    · rw [hid, htot]
    · show (trainLoop (job.total_count - job.trained_count)
        { job with timer := job.timer - dt } army).2.get_count job.troop_id = _
      rw [harmy, hcomp, h0]
      push_cast
      ring

/-- Witness for C5: the scenario job (10 units, 2s each, ledger-free),
trained in one 20-second update or in chunks. -/
theorem training_conservation_witness :
    (∀ dts : List ℚ, (training_run dts [sampleJob] ⟨[]⟩).1 = [] →
      (training_run dts [sampleJob] ⟨[]⟩).2.1.get_count sampleJob.troop_id =
        Army.get_count ⟨[]⟩ sampleJob.troop_id + (sampleJob.total_count : ℤ) ∧
      (training_run dts [sampleJob] ⟨[]⟩).2.2 =
        [(sampleJob.troop_id, sampleJob.total_count)]) ∧
    (∀ (dt : ℚ) (rest : List TrainingJob),
      ((training_update dt (sampleJob :: rest) ⟨[]⟩).1 = rest ∧
        (training_update dt (sampleJob :: rest) ⟨[]⟩).2.2 =
          [(sampleJob.troop_id, sampleJob.total_count)]) ∨
      (∃ j2, j2.trained_count < j2.total_count ∧
        (training_update dt (sampleJob :: rest) ⟨[]⟩).1 = j2 :: rest ∧
        (training_update dt (sampleJob :: rest) ⟨[]⟩).2.2 = [])) ∧
    (∀ dt : ℚ, 0 ≤ sampleJob.time_per_unit →
      sampleJob.timer + ((sampleJob.total_count : ℚ) - 1) * sampleJob.time_per_unit ≤ dt →
      (training_update dt [sampleJob] ⟨[]⟩).1 = [] ∧
      (training_update dt [sampleJob] ⟨[]⟩).2.2 =
        [(sampleJob.troop_id, sampleJob.total_count)] ∧
      (training_update dt [sampleJob] ⟨[]⟩).2.1.get_count sampleJob.troop_id =
        Army.get_count ⟨[]⟩ sampleJob.troop_id + (sampleJob.total_count : ℤ)) :=
  training_conservation sampleJob ⟨[]⟩ rfl

/-! ### Research / quest / building theorems -/

/-- `pay` returning `False` cannot have touched the ledger. -/
theorem pay_false_eq (s : ResourceManager) (cost : List (String × ℚ))
    (m : ResourceManager) (h : s.pay cost = some (m, false)) : m = s := by
  unfold ResourceManager.pay at h
  by_cases hc : s.can_afford cost = true
  · rw [if_pos hc] at h
    cases hp : payLoop s.resources cost with
    | some m2 => rw [hp] at h; simp at h
    | none => rw [hp] at h; simp at h
  · rw [if_neg hc] at h
    simp only [Option.some.injEq, Prod.mk.injEq] at h
    exact h.1.symm

theorem is_available_some (s : ResearchSystem) (rid : String) (lvl : ℤ)
    (h : s.is_available rid lvl = true) : ∃ rdef, alget s.defs rid = some rdef := by
  unfold ResearchSystem.is_available at h
  cases hd : alget s.defs rid with
  | none => rw [hd] at h; simp at h
  | some rdef => exact ⟨rdef, rfl⟩

/-- C8: `start_research` falls into exactly one of these cases: already
researching — failure, state untouched; unavailable — failure, state
untouched; payment refused — failure, state untouched (payment is atomic:
a `False` from `pay` deducts nothing); success — `current`, `timer` and
`total_time` are set from the definition and the paid ledger is installed,
`completed` and the timers otherwise untouched; or `pay` raised, in which
case the call propagates the exception.  In particular a call while
`is_researching` never mutates anything. -/
theorem start_research_spec (s : ResearchSystem) (rid : String) (lvl : ℤ) :
    (s.is_researching = true ∧
      s.start_research rid lvl = some (s, false, "Already researching")) ∨
    (s.is_researching = false ∧ s.is_available rid lvl = false ∧
      s.start_research rid lvl = some (s, false, "Requirements not met")) ∨
    (∃ rdef, s.is_researching = false ∧ s.is_available rid lvl = true ∧
      alget s.defs rid = some rdef ∧
      s.resource_mgr.pay rdef.cost = some (s.resource_mgr, false) ∧
      s.start_research rid lvl = some (s, false, "Not enough resources")) ∨
    (∃ rdef m2, s.is_researching = false ∧ s.is_available rid lvl = true ∧
      alget s.defs rid = some rdef ∧
      s.resource_mgr.pay rdef.cost = some (m2, true) ∧
      s.start_research rid lvl =
        some ({ s with resource_mgr := m2
                       current := some rid
                       timer := rdef.time
                       total_time := rdef.time }, true, "")) ∨
    (∃ rdef, alget s.defs rid = some rdef ∧
      s.resource_mgr.pay rdef.cost = none ∧ s.start_research rid lvl = none) := by
  by_cases hr : s.is_researching = true
  · left
    refine ⟨hr, ?_⟩
    unfold ResearchSystem.start_research
    rw [if_pos hr]
  · rw [Bool.not_eq_true] at hr
    by_cases ha : s.is_available rid lvl = true
    · obtain ⟨rdef, hd⟩ := is_available_some s rid lvl ha
      cases hp : s.resource_mgr.pay rdef.cost with
      | none =>
        right; right; right; right
        refine ⟨rdef, hd, hp, ?_⟩
        unfold ResearchSystem.start_research
        rw [if_neg (by rw [hr]; exact Bool.false_ne_true)]
        rw [if_neg (by rw [ha]; simp)]
        simp only [hd, hp]
      | some pr =>
        obtain ⟨m2, b⟩ := pr
        cases b with
        | false =>
          right; right; left
          have hm2 : m2 = s.resource_mgr := pay_false_eq _ _ _ hp
          subst hm2
          refine ⟨rdef, hr, ha, hd, hp, ?_⟩
          unfold ResearchSystem.start_research
          rw [if_neg (by rw [hr]; exact Bool.false_ne_true)]
          rw [if_neg (by rw [ha]; simp)]
          simp only [hd, hp]
        | true =>
          right; right; right; left
          refine ⟨rdef, m2, hr, ha, hd, hp, ?_⟩
          unfold ResearchSystem.start_research
          rw [if_neg (by rw [hr]; exact Bool.false_ne_true)]
          rw [if_neg (by rw [ha]; simp)]
          simp only [hd, hp]
    · right; left
      rw [Bool.not_eq_true] at ha
      refine ⟨hr, ha, ?_⟩
      unfold ResearchSystem.start_research
      rw [if_neg (by rw [hr]; exact Bool.false_ne_true)]
      rw [if_pos (by rw [ha]; rfl)]

/-- C9: a complete, unclaimed, non-repeatable quest (cooldown satisfied)
claims successfully exactly once: the first `claim` credits every non-xp
reward to the ledger once, marks the quest claimed and stamps the time; a
second `claim` on the resulting state fails and credits nothing; and
`claim` fails without crediting when the id is unknown, the quest is
incomplete, or a daily quest's 24-hour cooldown has not elapsed. -/
theorem quest_claim_spec (quests : List (String × Quest)) (mgr : ResourceManager)
    (qid : String) (t t2 : ℚ) (q : Quest)
    (hq : alget quests qid = some q)
    (hnr : q.definition.repeatable = false)
    (hcomp : q.is_complete = true)
    (hncl : q.claimed = false)
    (hdaily : q.can_claim_daily t = true) :
    (quest_claim quests mgr qid t =
      (alset quests qid { q with claimed := true, last_claim_time := t },
       q.definition.rewards.foldl
         (fun m p => if p.1 = "xp" then m else m.add p.1 p.2) mgr,
       true)) ∧
    (∀ mgr2 : ResourceManager,
      quest_claim (alset quests qid { q with claimed := true, last_claim_time := t })
          mgr2 qid t2 =
        (alset quests qid { q with claimed := true, last_claim_time := t },
         mgr2, false)) ∧
    (∀ (quests2 : List (String × Quest)) (mgr2 : ResourceManager) (qid2 : String)
        (t3 : ℚ), alget quests2 qid2 = none →
      quest_claim quests2 mgr2 qid2 t3 = (quests2, mgr2, false)) ∧
    (∀ (quests2 : List (String × Quest)) (mgr2 : ResourceManager) (qid2 : String)
        (t3 : ℚ) (q2 : Quest), alget quests2 qid2 = some q2 →
      q2.is_complete = false →
      quest_claim quests2 mgr2 qid2 t3 = (quests2, mgr2, false)) ∧
    (∀ (quests2 : List (String × Quest)) (mgr2 : ResourceManager) (qid2 : String)
        (t3 : ℚ) (q2 : Quest), alget quests2 qid2 = some q2 →
      q2.can_claim_daily t3 = false →
      quest_claim quests2 mgr2 qid2 t3 = (quests2, mgr2, false)) := by
  refine ⟨?_, ?_, ?_, ?_, ?_⟩
  · unfold quest_claim
    simp only [hq]
    rw [if_neg (by rw [hcomp, hncl]; simp)]
    rw [if_neg (by rw [hdaily]; simp)]
    rw [hnr]
    rfl
  · intro mgr2
    unfold quest_claim
    simp only [alget_alset_self]
    rw [if_pos (by simp)]
  · intro quests2 mgr2 qid2 t3 hnone
    unfold quest_claim
    simp only [hnone]
  · intro quests2 mgr2 qid2 t3 q2 hsome hincomp
    unfold quest_claim
    simp only [hsome]
    rw [if_pos (by rw [hincomp]; simp)]
  · intro quests2 mgr2 qid2 t3 q2 hsome hcd
    unfold quest_claim
    simp only [hsome]
    by_cases hfirst : (!q2.is_complete || q2.claimed) = true
    · rw [if_pos hfirst]
    · rw [if_neg hfirst]
      rw [if_pos (by rw [hcd]; simp)]

/-- Witness for C9 at a concrete single-quest system. -/
theorem quest_claim_spec_witness :
    (quest_claim [("q1", sampleQuest)] ⟨[("gold", 0)], [("gold", 1000)]⟩ "q1" 100 =
      (alset [("q1", sampleQuest)] "q1"
        { sampleQuest with claimed := true, last_claim_time := 100 },
       sampleQuest.definition.rewards.foldl
         (fun m p => if p.1 = "xp" then m else m.add p.1 p.2)
         ⟨[("gold", 0)], [("gold", 1000)]⟩,
       true)) ∧
    (∀ mgr2 : ResourceManager,
      quest_claim (alset [("q1", sampleQuest)] "q1"
          { sampleQuest with claimed := true, last_claim_time := 100 })
          mgr2 "q1" 200 =
        (alset [("q1", sampleQuest)] "q1"
          { sampleQuest with claimed := true, last_claim_time := 100 },
         mgr2, false)) ∧
    (∀ (quests2 : List (String × Quest)) (mgr2 : ResourceManager) (qid2 : String)
        (t3 : ℚ), alget quests2 qid2 = none →
      quest_claim quests2 mgr2 qid2 t3 = (quests2, mgr2, false)) ∧
    (∀ (quests2 : List (String × Quest)) (mgr2 : ResourceManager) (qid2 : String)
        (t3 : ℚ) (q2 : Quest), alget quests2 qid2 = some q2 →
      q2.is_complete = false →
      quest_claim quests2 mgr2 qid2 t3 = (quests2, mgr2, false)) ∧
    (∀ (quests2 : List (String × Quest)) (mgr2 : ResourceManager) (qid2 : String)
        (t3 : ℚ) (q2 : Quest), alget quests2 qid2 = some q2 →
      q2.can_claim_daily t3 = false →
      quest_claim quests2 mgr2 qid2 t3 = (quests2, mgr2, false)) :=
  quest_claim_spec [("q1", sampleQuest)] ⟨[("gold", 0)], [("gold", 1000)]⟩
    "q1" 100 200 sampleQuest (by simp [alget]) rfl (by rfl) rfl (by rfl)

/-- C10: `production` is the definition's per-level table when the building
is not under construction and empty while it is; it never depends on the
click-bonus state; and for an idle building `update(dt)` only advances the
click mechanic — level, definition, construction state (hence production)
are untouched, `click_available` is set exactly when the 10-second timer
fills for a resource building, and non-resource buildings are untouched
entirely. -/
theorem building_production_spec (b : Building) (dt : ℚ) :
    (b.building = true → b.production = []) ∧
    (b.building = false → b.production = b.definition.production_for b.level) ∧
    (∀ (ct : ℚ) (ca : Bool),
      Building.production { b with click_timer := ct, click_available := ca } =
        b.production) ∧
    (b.building = false →
      (b.update dt).1.building = false ∧ (b.update dt).1.level = b.level ∧
      (b.update dt).1.definition = b.definition ∧ (b.update dt).2 = false ∧
      (b.update dt).1.production = b.production ∧
      (b.is_resource_building = true →
        (b.update dt).1.click_available =
          (b.click_available || decide (10 ≤ b.click_timer + dt))) ∧
      (b.is_resource_building = false → (b.update dt).1 = b)) := by
  refine ⟨?_, ?_, ?_, ?_⟩
  · intro hb
    unfold Building.production
    rw [if_pos hb]
  · intro hb
    unfold Building.production
    rw [if_neg (by rw [hb]; exact Bool.false_ne_true)]
  · intro ct ca
    unfold Building.production
    rfl
  · intro hb
    unfold Building.update
    simp only [hb, Bool.not_false, Bool.and_true]
    by_cases hres : b.is_resource_building = true
    · rw [if_pos hres]
      by_cases h10 : 10 ≤ b.click_timer + dt
      · rw [if_pos h10]
        rw [if_pos (by rfl)]
        refine ⟨rfl, rfl, rfl, rfl, ?_, ?_, ?_⟩
        · unfold Building.production
          rw [hb]
        · intro _
          rw [decide_eq_true h10, Bool.or_true]
        · intro hcontra
          rw [hres] at hcontra
          cases hcontra
      · rw [if_neg h10]
        rw [if_pos (by rfl)]
        refine ⟨rfl, rfl, rfl, rfl, ?_, ?_, ?_⟩
        · unfold Building.production
          rw [hb]
        · intro _
          rw [decide_eq_false h10, Bool.or_false]
        · intro hcontra
          rw [hres] at hcontra
          cases hcontra
    · rw [if_neg hres]
      rw [if_pos (by rw [hb]; rfl)]
      exact ⟨hb, rfl, rfl, rfl, rfl, fun hcontra => absurd hcontra hres, fun _ => rfl⟩

/-- Witness for C10: an idle carrot farm with 3 s on the click timer,
updated by 8 s. -/
theorem building_production_spec_witness :
    (sampleBuilding.building = true → sampleBuilding.production = []) ∧
    (sampleBuilding.building = false →
      sampleBuilding.production =
        sampleBuilding.definition.production_for sampleBuilding.level) ∧
    (∀ (ct : ℚ) (ca : Bool),
      Building.production
          { sampleBuilding with click_timer := ct, click_available := ca } =
        sampleBuilding.production) ∧
    (sampleBuilding.building = false →
      (sampleBuilding.update 8).1.building = false ∧
      (sampleBuilding.update 8).1.level = sampleBuilding.level ∧
      (sampleBuilding.update 8).1.definition = sampleBuilding.definition ∧
      (sampleBuilding.update 8).2 = false ∧
      (sampleBuilding.update 8).1.production = sampleBuilding.production ∧
      (sampleBuilding.is_resource_building = true →
        (sampleBuilding.update 8).1.click_available =
          (sampleBuilding.click_available ||
            decide (10 ≤ sampleBuilding.click_timer + 8))) ∧
      (sampleBuilding.is_resource_building = false →
        (sampleBuilding.update 8).1 = sampleBuilding)) :=
  building_production_spec sampleBuilding 8

end BunnyLords
